import Mathlib

/-!
Verification development for the Undertaker node (a Marabu-protocol
cryptocurrency node written in TypeScript).  The definitions below are a
shallow embedding of the node's validator, mempool-reorganisation and
peer-session logic (`index.ts`, alias part_004, together with the zod
schemas of `types.ts`).  External facilities (Blake2s hashing, Ed25519
verification, the `net.isIP`/`is-valid-domain` peer syntax checks, the
wall clock and the peer network used by the object fetcher) are passed in
as explicit parameters, mirroring how the code treats them as opaque
libraries.  The three level-db stores (`objects`, `utxos`, `chaintip`)
and the two in-memory mempool globals are gathered into an explicit
`NodeState` that every effectful operation threads.  A store read on a
missing key rejects the level promise in the original code and surfaces
as an INTERNAL_ERROR wire message; the embedding returns the
`INTERNAL_ERROR` code at the point of the failed read, which produces the
same observable outcome.  Unbounded `while` loops are given fuel; running
out of fuel models divergence and is kept distinct from protocol errors.
-/

namespace Undertaker

/-- The twelve wire error codes of `types.ts` (`ErrorCode`). -/
inductive ErrName where
  | INTERNAL_ERROR
  | INVALID_FORMAT
  | UNKNOWN_OBJECT
  | UNFINDABLE_OBJECT
  | INVALID_HANDSHAKE
  | INVALID_TX_OUTPOINT
  | INVALID_TX_SIGNATURE
  | INVALID_TX_CONSERVATION
  | INVALID_BLOCK_COINBASE
  | INVALID_BLOCK_TIMESTAMP
  | INVALID_BLOCK_POW
  | INVALID_GENESIS
deriving DecidableEq, Repr

/-- Result of an embedded computation: success, divergence (an unbounded
loop that never finishes, modelled by fuel exhaustion), or a thrown
`ProtocolError` carrying one of the wire error codes. -/
inductive MRes (α : Type) where
  | ok (a : α)
  | fuelOut
  | perr (e : ErrName)
deriving DecidableEq, Repr

def MRes.bind {α β : Type} : MRes α → (α → MRes β) → MRes β
  | .ok a, f => f a
  | .fuelOut, _ => .fuelOut
  | .perr e, _ => .perr e

def MRes.map {α β : Type} (f : α → β) : MRes α → MRes β
  | .ok a => .ok (f a)
  | .fuelOut => .fuelOut
  | .perr e => .perr e

abbrev Hash := String

/-- A transaction input's outpoint (`types.ts` `Outpoint`). -/
structure Outpoint where
  txid : Hash
  index : Nat
deriving DecidableEq, Repr

/-- A transaction input: an outpoint plus a 128-hex signature. -/
structure TxInput where
  outpoint : Outpoint
  sig : String
deriving DecidableEq, Repr

/-- A transaction output: a public key and a non-negative integer value. -/
structure TxOutput where
  pubkey : String
  value : Nat
deriving DecidableEq, Repr

/-- `types.ts` `TransactionObject`: either a regular transaction
(`inputs` present) or a coinbase (`height` present, no `inputs`).  The
zod union makes the two shapes mutually exclusive. -/
inductive TransactionObject where
  | regular (inputs : List TxInput) (outputs : List TxOutput)
  | coinbase (height : Nat) (outputs : List TxOutput)
deriving DecidableEq, Repr

def TransactionObject.outputs : TransactionObject → List TxOutput
  | .regular _ outs => outs
  | .coinbase _ outs => outs

/-- `types.ts` `BlockObject`.  The optional `miner`/`note`/`studentids`
fields only influence the object's hash, which is abstract here; they are
carried along for fidelity. -/
structure BlockObject where
  txids : List Hash
  nonce : Hash
  previd : Option Hash
  created : Int
  T : Hash
  miner : Option String := none
  note : Option String := none
  studentids : Option (List String) := none
deriving DecidableEq, Repr

/-- `types.ts` `Object`: a transaction or a block. -/
inductive Object where
  | tx (t : TransactionObject)
  | block (b : BlockObject)
deriving DecidableEq, Repr

def asTx : Object → Option TransactionObject
  | .tx t => some t
  | .block _ => none

def asBlock : Object → Option BlockObject
  | .block b => some b
  | .tx _ => none

/-- An unspent transaction output (`types.ts` `UTXO`). -/
structure UTXO where
  txid : Hash
  index : Nat
  value : Nat
deriving DecidableEq, Repr

/-- The chaintip singleton (`{hash, block, height}` as stored by
`validateObject`). -/
structure Chaintip where
  hash : Hash
  block : BlockObject
  height : Nat
deriving DecidableEq, Repr

/-- The object store, an association list standing for the level-db
`./database` keyed by object id. -/
abbrev Db := List (Hash × Object)

def Db.getO (db : Db) (id : Hash) : Option Object :=
  (db.find? (fun p => p.1 == id)).map (·.2)

def Db.hasKey (db : Db) (id : Hash) : Bool :=
  (db.getO id).isSome

/-- `db.put(id, o)` is only performed after an existence check in the
code (`if (!await db.exists(objectid)) await db.put(...)`); the raw put
appends the binding. -/
def Db.putO (db : Db) (id : Hash) (o : Object) : Db :=
  db ++ [(id, o)]

/-- The UTXO index, standing for the level-db `./utxos` keyed by block
id.  `put` overwrites the key like level-db does. -/
abbrev UtxoStore := List (Hash × List UTXO)

def UtxoStore.getU (st : UtxoStore) (id : Hash) : Option (List UTXO) :=
  (st.find? (fun p => p.1 == id)).map (·.2)

def UtxoStore.putU (st : UtxoStore) (id : Hash) (u : List UTXO) : UtxoStore :=
  if (st.find? (fun p => p.1 == id)).isSome then
    st.map (fun p => if p.1 == id then (id, u) else p)
  else
    st ++ [(id, u)]

/-- All mutable node state touched by the validator: the three stores and
the two in-memory mempool globals (`mempoolUTXOs`, `mempoolTXs`). -/
structure NodeState where
  db : Db
  utxos : UtxoStore
  chaintip : Option Chaintip
  mempoolUTXOs : List UTXO
  mempoolTXs : List Hash
deriving DecidableEq, Repr

/-- The external facilities of `index.ts`, passed as parameters:
`hashFn` is `hashObject` (Blake2s-256 over canonical JSON), `verify` is
`validateStringSignature` (Ed25519), `now` is `Math.floor(Date.now() /
1000)`, `fetch` is the peer network behind `ensureObject`'s
request/await race (`some o` if some peer delivers the object within the
timeout, `none` otherwise), `peerValid` is
`net.isIP(getHostPort(p).host) || isValidDomain(getHostPort(p).host)`,
and `fuel` bounds the unbounded loops. -/
structure Env where
  hashFn : Object → Hash
  verify : String → String → String → Bool
  now : Int
  fetch : Hash → Option Object
  peerValid : String → Bool
  fuel : Nat

/-- `BLOCK_REWARD = 50_000000000000n`, a BigInt in the code, hence exact
integer arithmetic. -/
def BLOCK_REWARD : Int := 50000000000000

/-- The hard-coded genesis block id. -/
def GENESIS_BLOCK : Hash :=
  "0000000052a0e645eca917ae1c196e0d0a4fb756747f29ef52594d68484bb5e2"

/-- `MAX_MESSAGE_LENGTH = 1024_000_000` (part_004 line 35). -/
def MAX_MESSAGE_LENGTH : Nat := 1024000000

/-- `allTrue` (line 196). -/
def allTrue (elems : List Bool) : Bool := !(elems.contains false)

/-- `hasUTXO` (line 198). -/
def hasUTXO (utxoSet : List UTXO) (txid : Hash) (index : Nat) : Bool :=
  !(utxoSet.all (fun u => u.txid != txid || u.index != index))

/-- `getUTXO` (line 199); the code casts `find`'s possibly-undefined
result, here an `Option`. -/
def getUTXO (utxoSet : List UTXO) (txid : Hash) (index : Nat) : Option UTXO :=
  utxoSet.find? (fun u => u.txid == txid && u.index == index)

/-- `withUTXO` (line 200). -/
def withUTXO (utxoSet : List UTXO) (txid : Hash) (index : Nat) (value : Nat) :
    List UTXO :=
  utxoSet ++ [⟨txid, index, value⟩]

/-- `withoutUTXO` (line 201). -/
def withoutUTXO (utxoSet : List UTXO) (txid : Hash) (index : Nat) : List UTXO :=
  utxoSet.filter (fun u => u.txid != txid || u.index != index)

/-- The input half of `updateUTXO` (lines 207-217): spend each input in
order, accumulating its resolved value into the fee counter, or throw
`INVALID_TX_OUTPOINT` when the outpoint is not in the set. -/
def spendInputs : List TxInput → List UTXO → Int → MRes (List UTXO × Int)
  | [], set, fee => .ok (set, fee)
  | i :: rest, set, fee =>
    if hasUTXO set i.outpoint.txid i.outpoint.index then
      let v : Int :=
        match getUTXO set i.outpoint.txid i.outpoint.index with
        | some u => (u.value : Int)
        | none => 0
      spendInputs rest (withoutUTXO set i.outpoint.txid i.outpoint.index) (fee + v)
    else .perr .INVALID_TX_OUTPOINT

/-- The output half of `updateUTXO` (lines 218-224 and 227-230): append
each output as a fresh UTXO; when `chargeFee` is set (the regular-
transaction branch, where the fee handler is invoked) subtract each
output value from the fee counter. -/
def addOutputs (txid : Hash) (chargeFee : Bool) :
    List TxOutput → Nat → List UTXO → Int → List UTXO × Int
  | [], _, set, fee => (set, fee)
  | o :: rest, idx, set, fee =>
    addOutputs txid chargeFee rest (idx + 1) (withUTXO set txid idx o.value)
      (if chargeFee then fee - (o.value : Int) else fee)

/-- `updateUTXO` (lines 203-233).  Returns the new set together with the
net amount the code's `txFeeHandler` closure accumulated for this
transaction (`+` each resolved input value, `-` each output value for a
regular transaction; nothing for a coinbase). -/
def updateUTXO (hashFn : Object → Hash) (set : List UTXO)
    (tx : TransactionObject) : MRes (List UTXO × Int) :=
  let txid := hashFn (.tx tx)
  match tx with
  | .regular inputs outputs =>
    match spendInputs inputs set 0 with
    | .ok (set', fee) => .ok (addOutputs txid true outputs 0 set' fee)
    | .fuelOut => .fuelOut
    | .perr e => .perr e
  | .coinbase _ outputs => .ok (addOutputs txid false outputs 0 set 0)

/-- `applyTransaction` (lines 264-270): apply a transaction to a mempool
view, letting any error escape. -/
def applyTransaction (hashFn : Object → Hash) (tx : TransactionObject)
    (currentUTXOs : List UTXO) (currentTXs : List Hash) :
    MRes (List UTXO × List Hash) :=
  match updateUTXO hashFn currentUTXOs tx with
  | .ok (u, _) => .ok (u, currentTXs ++ [hashFn (.tx tx)])
  | .fuelOut => .fuelOut
  | .perr e => .perr e

/-- `ensureObject` (lines 158-179): return the stored object, otherwise
ask the peers and await delivery; with no delivery, throw
`UNFINDABLE_OBJECT`. -/
def ensureObject (db : Db) (fetch : Hash → Option Object) (id : Hash) :
    MRes Object :=
  match db.getO id with
  | some o => .ok o
  | none =>
    match fetch id with
    | some o => .ok o
    | none => .perr .UNFINDABLE_OBJECT

/-- `Promise.all(object.txids.map(ensureObject))` (line 324), sequenced. -/
def ensureAll (db : Db) (fetch : Hash → Option Object) :
    List Hash → MRes (List Object)
  | [] => .ok []
  | id :: rest =>
    match ensureObject db fetch id with
    | .ok o => (ensureAll db fetch rest).map (o :: ·)
    | .fuelOut => .fuelOut
    | .perr e => .perr e

/-- A `db.get` the code immediately treats as a block
(`as types.BlockObject`); a missing key rejects the level promise and a
non-block makes the subsequent field accesses crash, both surfacing as
INTERNAL_ERROR. -/
def dbGetBlock (db : Db) (h : Hash) : MRes BlockObject :=
  match db.getO h with
  | some (.block b) => .ok b
  | some (.tx _) => .perr .INTERNAL_ERROR
  | none => .perr .INTERNAL_ERROR

/-- `blockHeight` (lines 181-194).  Genesis (null `previd`) has height 0;
otherwise, when allowed to trust the coinbase (`trustCoinbase`, true by
default and in every recursive call, false only at the top call from
`validateObject`), a stored first transaction carrying a `height` field
short-circuits; otherwise recurse on the fetched parent and add one. -/
def blockHeight (db : Db) (fetch : Hash → Option Object) :
    Nat → BlockObject → Bool → MRes Nat
  | 0, _, _ => .fuelOut
  | fuel + 1, b, trustCoinbase =>
    match b.previd with
    | none => .ok 0
    | some prev =>
      let recurse : MRes Nat :=
        match ensureObject db fetch prev with
        | .ok (.block pb) => (blockHeight db fetch fuel pb true).map (· + 1)
        | .ok (.tx _) => .perr .INTERNAL_ERROR
        | .fuelOut => .fuelOut
        | .perr e => .perr e
      if b.txids.length > 0 && trustCoinbase then
        match db.getO (b.txids.headD "") with
        | none => .perr .INTERNAL_ERROR
        | some (.tx (.coinbase h _)) => .ok h
        | some _ => recurse
      else recurse

/-- The "naive lifting" `for` loop of `forgottenTransactions` (lines
244-247): step the pointer to its `previd` a fixed number of times,
reading the candidate block from the new chaintip itself when the
pointer equals its hash, else from the store. -/
def liftLoop (db : Db) (tip : Chaintip) : Nat → Option Hash → MRes (Option Hash)
  | 0, h => .ok h
  | n + 1, h =>
    match h with
    | none => .perr .INTERNAL_ERROR
    | some hh =>
      match (if hh = tip.hash then .ok tip.block else dbGetBlock db hh) with
      | .ok blk => liftLoop db tip n blk.previd
      | .fuelOut => .fuelOut
      | .perr e => .perr e

/-- The lock-step ancestor walk of `forgottenTransactions` (lines
249-252): while the two pointers differ, replace each by its parent. -/
def lockstepLoop (db : Db) : Nat → Option Hash → Option Hash → MRes (Option Hash)
  | 0, _, _ => .fuelOut
  | fuel + 1, oldA, newA =>
    if oldA = newA then .ok oldA
    else
      match oldA, newA with
      | some ho, some hn =>
        match dbGetBlock db ho with
        | .ok bo =>
          match dbGetBlock db hn with
          | .ok bn => lockstepLoop db fuel bo.previd bn.previd
          | .fuelOut => .fuelOut
          | .perr e => .perr e
        | .fuelOut => .fuelOut
        | .perr e => .perr e
      | _, _ => .perr .INTERNAL_ERROR

/-- The collection `while` loop of `forgottenTransactions` (lines
255-260): walk from the new chaintip down to the stop hash, prepending
each visited block's `txids`. -/
def collectLoop (db : Db) (tip : Chaintip) :
    Nat → Option Hash → Option Hash → List Hash → MRes (List Hash)
  | 0, _, _, _ => .fuelOut
  | fuel + 1, stop, cur, acc =>
    if cur = stop then .ok acc
    else
      match cur with
      | none => .perr .INTERNAL_ERROR
      | some h =>
        match (if h = tip.hash then .ok tip.block else dbGetBlock db h) with
        | .ok blk => collectLoop db tip fuel stop blk.previd (blk.txids ++ acc)
        | .fuelOut => .fuelOut
        | .perr e => .perr e

/-- `forgottenTransactions` (lines 235-262).  With a null old chaintip
there is no ancestor computation (`oldAncestor` stays null); otherwise
lift the new tip down by the height difference and walk both pointers
back in lock step; finally collect `txids` from the new tip down to the
ancestor. -/
def forgottenTransactions (db : Db) (fuel : Nat) (old : Option Chaintip)
    (newTip : Chaintip) : MRes (List Hash) :=
  match old with
  | none => collectLoop db newTip fuel none (some newTip.hash) []
  | some oc =>
    match liftLoop db newTip (newTip.height - oc.height) (some newTip.hash) with
    | .ok lifted =>
      match lockstepLoop db fuel (some oc.hash) lifted with
      | .ok anc => collectLoop db newTip fuel anc (some newTip.hash) []
      | .fuelOut => .fuelOut
      | .perr e => .perr e
    | .fuelOut => .fuelOut
    | .perr e => .perr e

/-- The loop body of the mempool rebuild (`attemptApplyTransaction`,
lines 272-287, driven by the `for` loop at lines 379-381): fetch each
transaction id from the store and attempt to apply it, silently keeping
the previous mempool when the application throws
`INVALID_TX_OUTPOINT` and rethrowing anything else. -/
def applyLoop (hashFn : Object → Hash) (db : Db) :
    List Hash → List UTXO → List Hash → MRes (List UTXO × List Hash)
  | [], u, t => .ok (u, t)
  | txid :: rest, u, t =>
    match db.getO txid with
    | none => .perr .INTERNAL_ERROR
    | some o =>
      match asTx o with
      | none => .perr .INTERNAL_ERROR
      | some tx =>
        match applyTransaction hashFn tx u t with
        | .ok (u', t') => applyLoop hashFn db rest u' t'
        | .perr .INVALID_TX_OUTPOINT => applyLoop hashFn db rest u t
        | .fuelOut => .fuelOut
        | .perr e => .perr e

/-- RFC 8785 canonical JSON of the "signable" transaction copy built at
lines 396-401: the transaction with every input's `sig` replaced by JSON
null, keys in sorted order (`inputs` < `outputs` < `type`; `outpoint` <
`sig`; `index` < `txid`; `pubkey` < `value`), no whitespace, integers
rendered in decimal.  Faithful to `canonicalize` on the schema-
constrained values (hex-string fields need no JSON escaping). -/
def canonicalizeSignable (inputs : List TxInput) (outputs : List TxOutput) :
    String :=
  "\x7b\"inputs\":[" ++
    String.intercalate ","
      (inputs.map (fun i =>
        "\x7b\"outpoint\":\x7b\"index\":" ++ toString i.outpoint.index ++
          ",\"txid\":\"" ++ i.outpoint.txid ++ "\"\x7d,\"sig\":null\x7d")) ++
    "],\"outputs\":[" ++
    String.intercalate ","
      (outputs.map (fun o =>
        "\x7b\"pubkey\":\"" ++ o.pubkey ++ "\",\"value\":" ++
          toString o.value ++ "\x7d")) ++
    "],\"type\":\"transaction\"\x7d"

/-- The per-input validation of a regular transaction (lines 403-420):
the outpoint's txid must be stored (else UNKNOWN_OBJECT), resolve to a
transaction (else INVALID_TX_OUTPOINT) with enough outputs (else
INVALID_TX_OUTPOINT), and the input's signature must verify over the
signable text with the referenced output's pubkey (else
INVALID_TX_SIGNATURE).  Returns the resolved output's value. -/
def checkInput (db : Db) (verify : String → String → String → Bool)
    (signableText : String) (i : TxInput) : MRes Int :=
  match db.getO i.outpoint.txid with
  | none => .perr .UNKNOWN_OBJECT
  | some (.block _) => .perr .INVALID_TX_OUTPOINT
  | some (.tx t) =>
    let outs := t.outputs
    if h : i.outpoint.index < outs.length then
      let op := outs.get ⟨i.outpoint.index, h⟩
      if verify i.sig signableText op.pubkey then .ok (op.value : Int)
      else .perr .INVALID_TX_SIGNATURE
    else .perr .INVALID_TX_OUTPOINT

/-- The input loop of the transaction validator, accumulating
`totalInputValue` (a BigInt in the code, an `Int` here). -/
def checkInputs (db : Db) (verify : String → String → String → Bool)
    (signableText : String) : List TxInput → Int → MRes Int
  | [], acc => .ok acc
  | i :: rest, acc =>
    match checkInput db verify signableText i with
    | .ok v => checkInputs db verify signableText rest (acc + v)
    | .fuelOut => .fuelOut
    | .perr e => .perr e

/-- The `transaction` branch of `validateObject` (lines 390-437).  A
coinbase is accepted outright; a regular transaction has each input
checked in order, then the duplicate-outpoint check (the code compares
the size of a `Set` of stringified outpoints with the input count —
structural outpoint equality here), then value conservation. -/
def validateTx (db : Db) (verify : String → String → String → Bool) :
    TransactionObject → MRes Unit
  | .coinbase _ _ => .ok ()
  | .regular inputs outputs =>
    let signableText := canonicalizeSignable inputs outputs
    match checkInputs db verify signableText inputs 0 with
    | .fuelOut => .fuelOut
    | .perr e => .perr e
    | .ok totalInputValue =>
      if (inputs.map (·.outpoint)).dedup.length < inputs.length then
        .perr .INVALID_TX_CONSERVATION
      else
        let totalOutputValue : Int := (outputs.map (fun o => (o.value : Int))).sum
        if totalInputValue < totalOutputValue then .perr .INVALID_TX_CONSERVATION
        else .ok ()

/-- JS `<` on strings: lexicographic comparison of UTF-16 code units
(for the hex strings compared here, of code points). -/
def strLtB : List Char → List Char → Bool
  | [], [] => false
  | [], _ :: _ => true
  | _ :: _, [] => false
  | a :: as, b :: bs =>
    if a.toNat < b.toNat then true
    else if b.toNat < a.toNat then false
    else strLtB as bs

def jsStrLt (s t : String) : Bool := strLtB s.data t.data

/-- The stateless front part of the `block` branch of `validateObject`
(lines 294-331): proof of work (`hash >= T` is JS string comparison),
timestamp not in the future, genesis/parent resolution with the parent's
timestamp check, fetching every listed transaction, all of them being
transactions, and only the first being allowed to be a coinbase.
Returns the resolved transaction objects. -/
def blockChecksPre (hashFn : Object → Hash) (now : Int)
    (fetch : Hash → Option Object) (db : Db) (b : BlockObject) :
    MRes (List Object) :=
  let hash := hashFn (.block b)
  if ¬ jsStrLt hash b.T then .perr .INVALID_BLOCK_POW
  else if b.created > now then .perr .INVALID_BLOCK_TIMESTAMP
  else
    let prevOk : MRes Unit :=
      match b.previd with
      | none => if hash ≠ GENESIS_BLOCK then .perr .INVALID_GENESIS else .ok ()
      | some previd =>
        match ensureObject db fetch previd with
        | .ok (.tx _) => .perr .INVALID_FORMAT
        | .ok (.block prev) =>
          if prev.created ≥ b.created then .perr .INVALID_BLOCK_TIMESTAMP
          else .ok ()
        | .fuelOut => .fuelOut
        | .perr e => .perr e
    match prevOk with
    | .fuelOut => .fuelOut
    | .perr e => .perr e
    | .ok _ =>
      match ensureAll db fetch b.txids with
      | .fuelOut => .fuelOut
      | .perr e => .perr e
      | .ok transactions =>
        if ¬ allTrue (transactions.map (fun o => (asTx o).isSome)) then
          .perr .INVALID_FORMAT
        else if ¬ allTrue ((transactions.drop 1).map (fun o =>
            match o with
            | .tx (.regular _ _) => true
            | _ => false)) then
          .perr .INVALID_BLOCK_COINBASE
        else .ok transactions

/-- Line 332: the block's coinbase, when its first resolved transaction
carries a `height` field. -/
def coinbaseOf (transactions : List Object) : Option (Nat × List TxOutput) :=
  match transactions.head? with
  | some (.tx (.coinbase h outs)) => some (h, outs)
  | _ => none

/-- Line 335: the starting UTXO set — the parent's persisted set, or the
empty set for a genesis block.  A missing `utxos` entry rejects the
level promise (INTERNAL_ERROR). -/
def startUTXO (st : UtxoStore) (previd : Option Hash) : MRes (List UTXO) :=
  match previd with
  | none => .ok []
  | some p =>
    match st.getU p with
    | some u => .ok u
    | none => .perr .INTERNAL_ERROR

/-- The replay `for` loop of lines 338-342: update the UTXO set with each
transaction in order, accumulating the transaction fees. -/
def buildUTXO (hashFn : Object → Hash) :
    List TransactionObject → List UTXO → Int → MRes (List UTXO × Int)
  | [], set, fees => .ok (set, fees)
  | tx :: rest, set, fees =>
    match updateUTXO hashFn set tx with
    | .ok (set', d) => buildUTXO hashFn rest set' (fees + d)
    | .fuelOut => .fuelOut
    | .perr e => .perr e

/-- The coinbase verification of lines 346-365, in code order: the
coinbase output must be unspent within the block (INVALID_TX_OUTPOINT),
its value must not exceed the fees plus the block reward
(INVALID_BLOCK_COINBASE), and its `height` must equal the computed block
height (INVALID_BLOCK_COINBASE).  The value comparison follows JS in
being skipped when the coinbase has no output (`undefined > x` is
false). -/
def coinbaseChecks (cb : Option (Nat × List TxOutput)) (utxoSet : List UTXO)
    (txid0 : Hash) (transactionFees : Int) (height : Nat) : MRes Unit :=
  match cb with
  | none => .ok ()
  | some (cbh, outs) =>
    if ¬ hasUTXO utxoSet txid0 0 then .perr .INVALID_TX_OUTPOINT
    else
      let valueBad : Bool :=
        match outs.head? with
        | some o => transactionFees + BLOCK_REWARD < (o.value : Int)
        | none => false
      if valueBad then .perr .INVALID_BLOCK_COINBASE
      else if height ≠ cbh then .perr .INVALID_BLOCK_COINBASE
      else .ok ()

/-- The `block` branch of `validateObject` (lines 293-389), with its
store writes in source order: the post-replay UTXO set is persisted
under the block's id (line 344) before the height computation and the
coinbase checks, and the chaintip (with the rebuilt mempool) is only
committed at the very end when the new height beats the incumbent. -/
def validateBlockFull (env : Env) (s : NodeState) (b : BlockObject) :
    MRes Unit × NodeState :=
  let hash := env.hashFn (.block b)
  match blockChecksPre env.hashFn env.now env.fetch s.db b with
  | .fuelOut => (.fuelOut, s)
  | .perr e => (.perr e, s)
  | .ok transactions =>
    let coinbase := coinbaseOf transactions
    match startUTXO s.utxos b.previd with
    | .fuelOut => (.fuelOut, s)
    | .perr e => (.perr e, s)
    | .ok set0 =>
      match buildUTXO env.hashFn (transactions.filterMap asTx) set0 0 with
      | .fuelOut => (.fuelOut, s)
      | .perr e => (.perr e, s)
      | .ok (utxoSet, transactionFees) =>
        let s1 : NodeState := { s with utxos := s.utxos.putU hash utxoSet }
        match blockHeight s.db env.fetch env.fuel b false with
        | .fuelOut => (.fuelOut, s1)
        | .perr e => (.perr e, s1)
        | .ok height =>
          match coinbaseChecks coinbase utxoSet (b.txids.headD "")
              transactionFees height with
          | .fuelOut => (.fuelOut, s1)
          | .perr e => (.perr e, s1)
          | .ok _ =>
            if (match s.chaintip with
                | none => true
                | some c => decide (height > c.height)) then
              let newTip : Chaintip := ⟨hash, b, height⟩
              match forgottenTransactions s.db env.fuel s.chaintip newTip with
              | .fuelOut => (.fuelOut, s1)
              | .perr e => (.perr e, s1)
              | .ok forgotten =>
                match applyLoop env.hashFn s.db (forgotten ++ s.mempoolTXs)
                    utxoSet [] with
                | .fuelOut => (.fuelOut, s1)
                | .perr e => (.perr e, s1)
                | .ok (newMempoolUTXOs, newMempoolTXs) =>
                  (.ok (), { s1 with
                    chaintip := some newTip
                    mempoolUTXOs := newMempoolUTXOs
                    mempoolTXs := newMempoolTXs })
            else (.ok (), s1)

/-- `validateObject` (lines 289-440): dispatch on the object's type.
The transaction branch reads the store but writes nothing. -/
def validateObject (env : Env) (s : NodeState) (o : Object) :
    MRes Unit × NodeState :=
  match o with
  | .block b => validateBlockFull env s b
  | .tx t => (validateTx s.db env.verify t, s)

/-- The wire messages of `types.ts` (`Message`), after schema
validation.  Error descriptions are free-text logging detail and are
dropped. -/
inductive Message where
  | hello (version : String) (agent : Option String)
  | errorMsg (name : ErrName)
  | getpeers
  | peersMsg (ps : List String)
  | getobject (objectid : Hash)
  | ihaveobject (objectid : Hash)
  | objectMsg (o : Object)
  | getmempool
  | mempoolMsg (txids : List Hash)
  | getchaintip
  | chaintipMsg (blockid : Hash)
deriving DecidableEq, Repr

/-- Observable session effects, in the order the handler performs them:
messages written to this peer's socket, destroying the socket
(`disconnect`), the `objectReceivedEmitter.emit` rendezvous, and the
two broadcasts to every live socket (`requestObject` and the
`ihaveobject` gossip). -/
inductive Action where
  | sendMsg (m : Message)
  | disconnectA
  | emitEvent (objectid : Hash)
  | broadcastGetObject (objectid : Hash)
  | broadcastIHave (objectid : Hash)
deriving DecidableEq, Repr

/-- Per-connection state: the `saidHello` handshake flag and whether the
socket has been destroyed. -/
structure SessionState where
  saidHello : Bool
  closed : Bool
deriving DecidableEq, Repr

/-- Everything one message-handling step can read or write: the global
peer set, the node state, this connection's session state, and the
accumulated effect trace. -/
structure World where
  peersSet : List String
  node : NodeState
  sess : SessionState
  actions : List Action
deriving DecidableEq, Repr

/-- `sendError` (lines 98-107): send the error message and additionally
disconnect on `INVALID_FORMAT` or `INVALID_HANDSHAKE`. -/
def sendErrorW (w : World) (e : ErrName) : World :=
  let w1 := { w with actions := w.actions ++ [.sendMsg (.errorMsg e)] }
  if e = .INVALID_FORMAT ∨ e = .INVALID_HANDSHAKE then
    { w1 with
      sess := { w1.sess with closed := true }
      actions := w1.actions ++ [.disconnectA] }
  else w1

/-- The `peers` case (lines 486-502): add each syntactically valid,
previously unknown peer to the registry.  `DESIRED_CONNECTIONS = 0`, so
the dial branch (`sockets.size < DESIRED_CONNECTIONS`) never runs. -/
def addPeers (peerValid : String → Bool) : List String → List String → List String
  | known, [] => known
  | known, p :: rest =>
    addPeers peerValid
      (if peerValid p && ¬ known.contains p then known ++ [p] else known) rest

/-- The message `switch` of `handleConnection` (lines 480-586).  Thrown
protocol errors escape to the surrounding catch as the `MRes` error
component; state changes already performed stay. -/
def handleSwitch (env : Env) (w : World) (msg : Message) : MRes Unit × World :=
  match msg with
  | .hello _ _ => (.ok (), { w with sess := { w.sess with saidHello := true } })
  | .errorMsg _ => (.ok (), w)
  | .peersMsg ps =>
    (.ok (), { w with peersSet := addPeers env.peerValid w.peersSet ps })
  | .getpeers =>
    (.ok (), { w with actions := w.actions ++ [.sendMsg (.peersMsg w.peersSet)] })
  | .getobject objectid =>
    (match w.node.db.getO objectid with
     | some o =>
       (.ok (), { w with actions := w.actions ++ [.sendMsg (.objectMsg o)] })
     | none => (.ok (), sendErrorW w .UNKNOWN_OBJECT))
  | .objectMsg o =>
    let objectid := env.hashFn o
    (match validateObject env w.node o with
     | (.ok _, n1) =>
       let n2 := if n1.db.hasKey objectid then n1
                 else { n1 with db := n1.db.putO objectid o }
       let w2 := { w with
         node := n2
         actions := w.actions ++ [.emitEvent objectid, .broadcastIHave objectid] }
       (match o with
        | .tx (.regular ins outs) =>
          (match applyTransaction env.hashFn (.regular ins outs)
              n2.mempoolUTXOs n2.mempoolTXs with
           | .ok (mu, mt) =>
             (.ok (), { w2 with
               node := { n2 with mempoolUTXOs := mu, mempoolTXs := mt } })
           | .fuelOut => (.fuelOut, w2)
           | .perr e => (.perr e, w2))
        | _ => (.ok (), w2))
     | (.fuelOut, n1) => (.fuelOut, { w with node := n1 })
     | (.perr e, n1) => (.perr e, { w with node := n1 }))
  | .ihaveobject objectid =>
    if w.node.db.hasKey objectid then (.ok (), w)
    else (.ok (), { w with actions := w.actions ++ [.sendMsg (.getobject objectid)] })
  | .chaintipMsg blockid =>
    (match ensureObject w.node.db env.fetch blockid with
     | .ok _ => (.ok (), w)
     | .fuelOut => (.fuelOut, w)
     | .perr e => (.perr e, w))
  | .getchaintip =>
    (match w.node.chaintip with
     | some tip =>
       (.ok (), { w with actions := w.actions ++ [.sendMsg (.chaintipMsg tip.hash)] })
     | none => (.ok (), w))
  | .mempoolMsg txids =>
    (.ok (), { w with actions := w.actions ++ txids.map Action.broadcastGetObject })
  | .getmempool =>
    (.ok (), { w with
      actions := w.actions ++ [.sendMsg (.mempoolMsg w.node.mempoolTXs)] })

/-- One parsed line inside the `while` loop (lines 476-586): the
handshake guard at lines 477-479 sends `INVALID_HANDSHAKE` (closing the
socket) when a non-`hello` message arrives before a valid hello — and
then, with no early return in the code, the `switch` still runs on the
same message. -/
def handleMessage (env : Env) (w : World) (msg : Message) : MRes Unit × World :=
  let isHello : Bool := match msg with | .hello _ _ => true | _ => false
  let w1 := if ¬ w.sess.saidHello && ¬ isHello then
              sendErrorW w .INVALID_HANDSHAKE
            else w
  handleSwitch env w1 msg

/-- A parsed line together with the surrounding catch (lines 592-601):
a thrown `ProtocolError` is reported with `sendError` (which also
disconnects for `INVALID_FORMAT`/`INVALID_HANDSHAKE`); effects already
performed are not rolled back. -/
def handleLine (env : Env) (w : World) (msg : Message) : World :=
  match handleMessage env w msg with
  | (.ok _, w') => w'
  | (.perr e, w') => sendErrorW w' e
  | (.fuelOut, w') => w'

/-- The line splitter of the `data` handler (lines 471-473): repeatedly
take everything before the next newline as a message, returning the
extracted lines and the leftover partial message. -/
def splitLines : List Char → List (List Char) × List Char
  | [] => ([], [])
  | c :: cs =>
    let r := splitLines cs
    if c = '\n' then ([] :: r.1, r.2)
    else
      match r with
      | (line :: ls, rest) => ((c :: line) :: ls, rest)
      | ([], rest) => ([], c :: rest)

/-- The buffering of the `data` handler (lines 466-467): the incoming
chunk is sliced to `MAX_MESSAGE_LENGTH` and the concatenated buffer is
again truncated to `MAX_MESSAGE_LENGTH` before lines are split off.
Returns the complete lines handed to `JSON.parse` and the retained
partial buffer. -/
def processChunk (buffer chunk : List Char) : List (List Char) × List Char :=
  splitLines ((buffer ++ chunk.take MAX_MESSAGE_LENGTH).take MAX_MESSAGE_LENGTH)

/-- Follows the spec's words (§4.4 step 7): resolve each input of a
regular transaction against the replayed UTXO state, removing it as it
is spent, and return the sum of the resolved input values together with
the remaining set; `none` when an input's UTXO is absent. -/
def specResolveInputs : List TxInput → List UTXO → Option (Int × List UTXO)
  | [], set => some (0, set)
  | i :: rest, set =>
    match getUTXO set i.outpoint.txid i.outpoint.index with
    | none => none
    | some u =>
      match specResolveInputs rest
          (withoutUTXO set i.outpoint.txid i.outpoint.index) with
      | none => none
      | some (v, set') => some ((u.value : Int) + v, set')

/-- Follows the spec's words: each output of a transaction becomes a new
UTXO at its index. -/
def specOutputsAsUTXOs (txid : Hash) : List TxOutput → Nat → List UTXO
  | [], _ => []
  | o :: rest, idx => ⟨txid, idx, o.value⟩ :: specOutputsAsUTXOs txid rest (idx + 1)

/-- Follows the spec's words (§4.4 steps 7-8 and claim C7): a regular
transaction's fee contribution is the sum of its resolved input values
minus the sum of its output values; a coinbase contributes zero. -/
def specTxFee (hashFn : Object → Hash) (set : List UTXO) :
    TransactionObject → Option (Int × List UTXO)
  | .regular ins outs =>
    match specResolveInputs ins set with
    | none => none
    | some (inSum, set') =>
      some (inSum - (outs.map (fun o => (o.value : Int))).sum,
        set' ++ specOutputsAsUTXOs (hashFn (.tx (.regular ins outs))) outs 0)
  | .coinbase h outs =>
    some (0, set ++ specOutputsAsUTXOs (hashFn (.tx (.coinbase h outs))) outs 0)

/-- Follows the spec's words: the total fee of a block is the sum of the
per-transaction fee contributions, replayed in order. -/
def specBlockFees (hashFn : Object → Hash) :
    List TransactionObject → List UTXO → Option Int
  | [], _ => some 0
  | tx :: rest, set =>
    match specTxFee hashFn set tx with
    | none => none
    | some (f, set') => (specBlockFees hashFn rest set').map (f + ·)

/-- A chain listed tip-first: every entry's block points via `previd` at
the next entry's hash, and the last entry is a genesis block (null
`previd`). -/
def chainLinkedB : List (Hash × BlockObject) → Bool
  | [] => true
  | (_, b) :: rest =>
    (match rest with
     | [] => b.previd == none
     | (h', _) :: _ => b.previd == some h') && chainLinkedB rest

/-- The hash of the first entry of a (tip-first) chain fragment. -/
def headHash (l : List (Hash × BlockObject)) : Option Hash :=
  l.head?.map (·.1)

/-- Boolean success test for the per-input validation, used to phrase
"the earlier inputs pass". -/
def inputOkB (db : Db) (verify : String → String → String → Bool)
    (signableText : String) (i : TxInput) : Bool :=
  match checkInput db verify signableText i with
  | .ok _ => true
  | _ => false

/-- The value of the output an input's outpoint resolves to in the
object store (0 when unresolvable; only quoted under hypotheses that
make it resolvable). -/
def resolvedValue (db : Db) (i : TxInput) : Int :=
  match db.getO i.outpoint.txid with
  | some (.tx t) =>
    match t.outputs.get? i.outpoint.index with
    | some o => (o.value : Int)
    | none => 0
  | _ => 0

/-- The fixed proof-of-work target from `types.ts`
(`BLOCK_POW_TARGET`). -/
def BLOCK_POW_TARGET : Hash :=
  "00000000abc00000000000000000000000000000000000000000000000000000"

/-- Fixtures for the concrete (witness) runs: a signature oracle that
accepts everything, standing for Ed25519 on correctly signed data. -/
def verifyAll : String → String → String → Bool := fun _ _ _ => true

/-- Fixture: environment whose hasher maps every object to the genesis
id, for exercising the genesis path. -/
def envG : Env :=
  { hashFn := fun _ => GENESIS_BLOCK, verify := verifyAll, now := 0,
    fetch := fun _ => none, peerValid := fun _ => true, fuel := 5 }

/-- Fixture: a well-formed genesis block with no transactions. -/
def genesisW : BlockObject :=
  { txids := [], nonce := "0f", previd := none, created := 0, T := BLOCK_POW_TARGET }

/-- Fixture: the node state of a freshly started node. -/
def emptyState : NodeState :=
  { db := [], utxos := [], chaintip := none, mempoolUTXOs := [], mempoolTXs := [] }

/-- Fixture: a block whose PoW target is the empty string, so its hash
can never be below it. -/
def powBadBlock : BlockObject :=
  { txids := [], nonce := "0f", previd := none, created := 0, T := "" }

/-- Fixture: a stored coinbase with one 10-value output, the funding
source for the concrete transactions below. -/
def coinbaseW : TransactionObject := .coinbase 0 [⟨"ee37", 10⟩]

/-- Fixture: an object store holding only `coinbaseW` under id "c0". -/
def dbW : Db := [("c0", .tx coinbaseW)]

/-- Fixture: a parent (genesis-shaped) block stored under "g". -/
def parentW : BlockObject :=
  { txids := [], nonce := "0e", previd := none, created := 0, T := BLOCK_POW_TARGET }

/-- Fixture: a coinbase for height 1 that claims one picocoin more than
the block reward. -/
def cbGreedy : TransactionObject := .coinbase 1 [⟨"ee37", 50000000000001⟩]

/-- Fixture: store holding the parent block and the greedy coinbase. -/
def dbC2 : Db := [("g", .block parentW), ("cb", .tx cbGreedy)]

/-- Fixture: hashing oracle for the greedy-coinbase scenario: the
candidate block hashes below the target, the coinbase hashes to its
stored id. -/
def envC2 : Env :=
  { hashFn := fun o =>
      match o with
      | .block _ => "0000000000000000000000000000000000000000000000000000000000000001"
      | .tx (.coinbase _ _) => "cb"
      | .tx (.regular _ _) => "t1"
    verify := verifyAll, now := 1, fetch := fun _ => none,
    peerValid := fun _ => true, fuel := 5 }

/-- Fixture: the candidate block carrying only the greedy coinbase. -/
def blockC2 : BlockObject :=
  { txids := ["cb"], nonce := "0d", previd := some "g", created := 1,
    T := BLOCK_POW_TARGET }

/-- Fixture: node state that already validated the parent block. -/
def stateC2 : NodeState :=
  { db := dbC2, utxos := [("g", [])], chaintip := none,
    mempoolUTXOs := [], mempoolTXs := [] }

/-- Fixture: a regular transaction spending the large funding output,
with no outputs — its whole input value becomes fee. -/
def t1C7 : TransactionObject := .regular [⟨⟨"a0", 0⟩, "s0"⟩] []

def cbC7 : TransactionObject := .coinbase 1 [⟨"ee37", 51099511627777⟩]

def parentC7 : BlockObject :=
  { txids := [], nonce := "0e", previd := none, created := 0, T := BLOCK_POW_TARGET }

def dbC7 : Db := [("g", .block parentC7), ("cb", .tx cbC7), ("t1", .tx t1C7)]

def envC7 : Env :=
  { hashFn := fun o =>
      match o with
      | .block _ => "0000000000000000000000000000000000000000000000000000000000000001"
      | .tx (.coinbase _ _) => "cb"
      | .tx (.regular _ _) => "t1"
    verify := fun _ _ _ => true, now := 1, fetch := fun _ => none,
    peerValid := fun _ => true, fuel := 5 }

def blockC7 : BlockObject :=
  { txids := ["cb", "t1"], nonce := "0d", previd := some "g", created := 1,
    T := BLOCK_POW_TARGET }

def stateC7 : NodeState :=
  { db := dbC7, utxos := [("g", [⟨"a0", 0, 1099511627776⟩])], chaintip := none,
    mempoolUTXOs := [], mempoolTXs := [] }

/-- Fixture: a fresh connection that has not yet said hello. -/
def wAwait : World :=
  { peersSet := [], node := emptyState, sess := { saidHello := false, closed := false },
    actions := [] }

/-- Fixture: hashing oracle for the mempool-rejection scenario: the
regular transaction hashes to id t1, coinbases to the stored id c0. -/
def envC9 : Env :=
  { hashFn := fun o =>
      match o with
      | .block _ => "b1"
      | .tx (.coinbase _ _) => "c0"
      | .tx (.regular _ _) => "t1"
    verify := verifyAll, now := 0, fetch := fun _ => none,
    peerValid := fun _ => true, fuel := 5 }

def wC9 : World :=
  { peersSet := [],
    node := { db := dbW, utxos := [], chaintip := none,
              mempoolUTXOs := [], mempoolTXs := [] },
    sess := { saidHello := true, closed := false }, actions := [] }

def insC9 : List TxInput := [⟨⟨"c0", 0⟩, "s0"⟩]

def outsC9 : List TxOutput := [⟨"ee37", 5⟩]

/-- Fixtures for the reorg scenario: a genesis g, an old branch with
one block o1 carrying transaction ta, and a new branch n1, n2 carrying
tb and tc; chains are listed tip-first. -/
def gC1 : BlockObject :=
  { txids := [], nonce := "00", previd := none, created := 0, T := "zz" }

def o1C1 : BlockObject :=
  { txids := ["ta"], nonce := "01", previd := some "g", created := 0, T := "zz" }

def n1C1 : BlockObject :=
  { txids := ["tb"], nonce := "02", previd := some "g", created := 0, T := "zz" }

def n2C1 : BlockObject :=
  { txids := ["tc"], nonce := "03", previd := some "n1", created := 0, T := "zz" }

def dbC1 : Db :=
  [("g", .block gC1), ("o1", .block o1C1), ("n1", .block n1C1), ("n2", .block n2C1)]

def ocC1 : Chaintip := ⟨"o1", o1C1, 1⟩

def ntC1 : Chaintip := ⟨"n2", n2C1, 2⟩

def oldPartC1 : List (Hash × BlockObject) := [("o1", o1C1)]

def newPartC1 : List (Hash × BlockObject) := [("n2", n2C1), ("n1", n1C1)]

def commonC1 : List (Hash × BlockObject) := [("g", gC1)]

def tipCexC1 : Chaintip :=
  ⟨"aa", { txids := ["t0"], nonce := "00", previd := none, created := 0, T := "zz" }, 0⟩

/-! ### Theorems -/

theorem splitLines_length_lt (l : List Char) :
    ∀ line ∈ (splitLines l).1, line.length < l.length := by
  induction l with
  | nil => intro line h; simp [splitLines] at h
  | cons c cs ih =>
    intro line h
    by_cases hc : c = '\n'
    · simp only [splitLines, hc, if_pos rfl] at h
      rcases List.mem_cons.mp h with h | h
      · subst h; simp
      · exact Nat.lt_succ_of_lt (ih line h)
    · simp only [splitLines, if_neg hc] at h
      rcases hr : splitLines cs with ⟨ls, rest⟩
      rw [hr] at h
      match ls, h with
      | line' :: ls', h =>
        simp only at h
        rcases List.mem_cons.mp h with h | h
        · subst h
          have : line' ∈ (splitLines cs).1 := by rw [hr]; exact List.mem_cons_self _ _
          have := ih line' this
          simpa using Nat.succ_lt_succ this
        · have : line ∈ (splitLines cs).1 := by rw [hr]; exact List.mem_cons_of_mem _ h
          exact Nat.lt_succ_of_lt (ih line this)

theorem splitLines_replicate (n : Nat) :
    splitLines (List.replicate n 'a' ++ ['\n']) = ([List.replicate n 'a'], []) := by
  induction n with
  | zero => rfl
  | succ n ih =>
    rw [List.replicate_succ, List.cons_append]
    simp only [splitLines, ih, if_neg (by decide : ¬ ('a' = '\n'))]

/-- C4 (amended): every line the data handler extracts for JSON parsing
is strictly shorter than `MAX_MESSAGE_LENGTH` = 1 024 000 000 characters
(the buffer is truncated to that length before line extraction), so no
message of that length or longer is ever parsed; the code's limit is
1 024 000 000 bytes, not the 100 KiB (102 400 bytes) the claim states. -/
theorem c4_line_limit (buffer chunk line : List Char)
    (h : line ∈ (processChunk buffer chunk).1) :
    line.length < MAX_MESSAGE_LENGTH := by
  simp only [processChunk] at h
  have h1 := splitLines_length_lt _ line h
  have h2 : ((buffer ++ chunk.take MAX_MESSAGE_LENGTH).take MAX_MESSAGE_LENGTH).length
      ≤ MAX_MESSAGE_LENGTH := by
    simp [List.length_take]
  exact lt_of_lt_of_le h1 h2

theorem c4_line_limit_witness :
    (['h', 'i'] ∈ (processChunk [] ['h', 'i', '\n']).1) ∧
      (['h', 'i'] : List Char).length < MAX_MESSAGE_LENGTH := by
  have hmem : ['h', 'i'] ∈ (processChunk [] ['h', 'i', '\n']).1 := by
    have hlen : ((['h', 'i', '\n'] : List Char)).length ≤ MAX_MESSAGE_LENGTH := by
      simp [MAX_MESSAGE_LENGTH]
    simp only [processChunk, List.nil_append, List.take_of_length_le hlen]
    decide
  exact ⟨hmem, c4_line_limit [] ['h', 'i', '\n'] ['h', 'i'] hmem⟩

/-- C4 (counterexample): a line of 102 401 characters — strictly more
than 100 KiB — is extracted intact (not truncated) and handed to the
JSON parser, refuting "no single message longer than 100 KiB is ever
parsed and acted upon". -/
theorem c4_counterexample :
    processChunk [] (List.replicate 102401 'a' ++ ['\n'])
        = ([List.replicate 102401 'a'], []) ∧
      102400 < (List.replicate 102401 'a').length := by
  constructor
  · have hlen : ((List.replicate 102401 'a' ++ ['\n']) : List Char).length
        ≤ MAX_MESSAGE_LENGTH := by
      rw [List.length_append, List.length_replicate]
      norm_num [MAX_MESSAGE_LENGTH]
    simp only [processChunk, List.nil_append, List.take_of_length_le hlen]
    exact splitLines_replicate 102401
  · rw [List.length_replicate]
    norm_num

theorem find_map_put (st : UtxoStore) (k : Hash) (v : List UTXO)
    (h : (st.find? (fun q => q.1 == k)).isSome = true) :
    (st.map (fun p => if p.1 == k then (k, v) else p)).find? (fun q => q.1 == k)
      = some (k, v) := by
  induction st with
  | nil => simp at h
  | cons p st ih =>
    by_cases hp : p.1 = k
    · simp [List.find?, hp]
    · have hp' : (p.1 == k) = false := beq_eq_false_iff_ne.mpr hp
      simp only [List.find?, hp'] at h
      simp only [List.map_cons, hp', Bool.false_eq_true, if_false, List.find?]
      exact ih h

theorem UtxoStore.getU_putU (st : UtxoStore) (k : Hash) (v : List UTXO) :
    (st.putU k v).getU k = some v := by
  unfold UtxoStore.putU UtxoStore.getU
  by_cases hf : (st.find? (fun q => q.1 == k)).isSome = true
  · rw [if_pos hf, find_map_put st k v hf]
    rfl
  · rw [if_neg hf, List.find?_append, Option.not_isSome_iff_eq_none.mp hf]
    simp [List.find?]

theorem checkInput_ok_of_inputOkB (db : Db) (verify : String → String → String → Bool)
    (signable : String) (i : TxInput) (h : inputOkB db verify signable i = true) :
    checkInput db verify signable i = .ok (resolvedValue db i) := by
  unfold inputOkB at h
  rcases hdb : db.getO i.outpoint.txid with _ | o
  · rw [checkInput, hdb] at h; simp at h
  · cases o with
    | block b => rw [checkInput, hdb] at h; simp at h
    | tx t =>
      by_cases hidx : i.outpoint.index < t.outputs.length
      · by_cases hv : verify i.sig signable (t.outputs.get ⟨i.outpoint.index, hidx⟩).pubkey = true
        · rw [checkInput, hdb]
          simp only [hidx, dif_pos, hv, if_pos]
          simp [resolvedValue, hdb, List.getElem?_eq_getElem hidx]
        · rw [checkInput, hdb] at h
          simp only [hidx, dif_pos] at h
          rw [if_neg hv] at h
          simp at h
      · rw [checkInput, hdb] at h
        simp only [hidx, dif_neg, not_false_iff] at h
        simp at h

theorem checkInputs_all_ok (db : Db) (verify : String → String → String → Bool)
    (signable : String) : ∀ (l : List TxInput) (acc : Int),
    (∀ i ∈ l, inputOkB db verify signable i = true) →
    checkInputs db verify signable l acc = .ok (acc + (l.map (resolvedValue db)).sum) := by
  intro l
  induction l with
  | nil => intro acc _; simp [checkInputs]
  | cons i rest ih =>
    intro acc h
    have hi := h i (List.mem_cons_self _ _)
    simp only [checkInputs, checkInput_ok_of_inputOkB db verify signable i hi,
      ih _ (fun j hj => h j (List.mem_cons_of_mem _ hj)),
      List.map_cons, List.sum_cons, add_assoc]

theorem checkInputs_append (db : Db) (verify : String → String → String → Bool)
    (signable : String) : ∀ (pre l : List TxInput) (acc : Int),
    (∀ i ∈ pre, inputOkB db verify signable i = true) →
    checkInputs db verify signable (pre ++ l) acc =
      checkInputs db verify signable l (acc + (pre.map (resolvedValue db)).sum) := by
  intro pre
  induction pre with
  | nil => intro l acc _; simp
  | cons i rest ih =>
    intro l acc h
    have hi := h i (List.mem_cons_self _ _)
    rw [List.cons_append]
    simp only [checkInputs, checkInput_ok_of_inputOkB db verify signable i hi,
      ih _ _ (fun j hj => h j (List.mem_cons_of_mem _ hj)),
      List.map_cons, List.sum_cons, add_assoc]

theorem dedup_length_lt_iff {α : Type} [DecidableEq α] (l : List α) :
    l.dedup.length < l.length ↔ ¬ l.Nodup := by
  constructor
  · intro h hn
    rw [List.dedup_eq_self.mpr hn] at h
    exact lt_irrefl _ h
  · intro hn
    rcases lt_or_eq_of_le (List.dedup_sublist l).length_le with h | h
    · exact h
    · exact absurd (List.dedup_eq_self.mp ((List.dedup_sublist l).eq_of_length h)) hn

/-- C5: for a regular transaction all of whose inputs pass the per-input
checks, the validator throws `INVALID_TX_CONSERVATION` when two inputs
share an outpoint, throws `INVALID_TX_CONSERVATION` when the sum of the
resolved input values is strictly below the sum of the output values,
and accepts the transaction when the outpoints are pairwise distinct and
the input sum covers the output sum. -/
theorem c5_conservation (db : Db) (verify : String → String → String → Bool)
    (inputs : List TxInput) (outputs : List TxOutput)
    (h : ∀ i ∈ inputs,
      inputOkB db verify (canonicalizeSignable inputs outputs) i = true) :
    (¬ (inputs.map (·.outpoint)).Nodup →
      validateTx db verify (.regular inputs outputs) = .perr .INVALID_TX_CONSERVATION) ∧
    ((inputs.map (resolvedValue db)).sum < (outputs.map (fun o => (o.value : Int))).sum →
      validateTx db verify (.regular inputs outputs) = .perr .INVALID_TX_CONSERVATION) ∧
    ((inputs.map (·.outpoint)).Nodup →
      (outputs.map (fun o => (o.value : Int))).sum ≤ (inputs.map (resolvedValue db)).sum →
      validateTx db verify (.regular inputs outputs) = .ok ()) := by
  have hci := checkInputs_all_ok db verify (canonicalizeSignable inputs outputs) inputs 0 h
  rw [zero_add] at hci
  have hiff : ((inputs.map (·.outpoint)).dedup.length < inputs.length) ↔
      ¬ (inputs.map (·.outpoint)).Nodup := by
    conv_lhs => rw [← List.length_map inputs (·.outpoint)]
    exact dedup_length_lt_iff _
  refine ⟨?_, ?_, ?_⟩
  · intro hdup
    simp only [validateTx, hci]
    rw [if_pos (hiff.mpr hdup)]
  · intro hlt
    simp only [validateTx, hci]
    by_cases hdup : (inputs.map (·.outpoint)).Nodup
    · rw [if_neg (by rw [hiff]; exact not_not_intro hdup), if_pos hlt]
    · rw [if_pos (hiff.mpr hdup)]
  · intro hnodup hle
    simp only [validateTx, hci]
    rw [if_neg (by rw [hiff]; exact not_not_intro hnodup),
      if_neg (not_lt_of_ge hle)]

theorem c5_conservation_witness :
    (∀ i ∈ [TxInput.mk ⟨"c0", 0⟩ "s0"],
      inputOkB dbW verifyAll
        (canonicalizeSignable [TxInput.mk ⟨"c0", 0⟩ "s0"] [TxOutput.mk "pk" 5]) i = true) ∧
    validateTx dbW verifyAll
      (.regular [TxInput.mk ⟨"c0", 0⟩ "s0"] [TxOutput.mk "pk" 5]) = .ok () := by
  have h : ∀ i ∈ [TxInput.mk ⟨"c0", 0⟩ "s0"],
      inputOkB dbW verifyAll
        (canonicalizeSignable [TxInput.mk ⟨"c0", 0⟩ "s0"] [TxOutput.mk "pk" 5]) i = true := by
    decide
  exact ⟨h, (c5_conservation dbW verifyAll _ _ h).2.2 (by decide) (by decide)⟩

/-- C6: for the first failing input of a regular transaction (all
earlier inputs passing), validation reports `UNKNOWN_OBJECT` when the
outpoint's txid is not stored, `INVALID_TX_OUTPOINT` when it resolves to
a block or the outpoint index is out of range of the resolved
transaction's outputs, and `INVALID_TX_SIGNATURE` when Ed25519
verification with the referenced output's pubkey fails over
`canonicalizeSignable` — the RFC 8785 canonical JSON of the transaction
with every input's sig replaced by JSON null. -/
theorem c6_input_checks (db : Db) (verify : String → String → String → Bool)
    (inputs : List TxInput) (outputs : List TxOutput)
    (pre rest : List TxInput) (i : TxInput)
    (hsplit : inputs = pre ++ i :: rest)
    (hpre : ∀ j ∈ pre,
      inputOkB db verify (canonicalizeSignable inputs outputs) j = true) :
    (db.getO i.outpoint.txid = none →
      validateTx db verify (.regular inputs outputs) = .perr .UNKNOWN_OBJECT) ∧
    (∀ b, db.getO i.outpoint.txid = some (.block b) →
      validateTx db verify (.regular inputs outputs) = .perr .INVALID_TX_OUTPOINT) ∧
    (∀ t, db.getO i.outpoint.txid = some (.tx t) →
      t.outputs.length ≤ i.outpoint.index →
      validateTx db verify (.regular inputs outputs) = .perr .INVALID_TX_OUTPOINT) ∧
    (∀ t (hlen : i.outpoint.index < t.outputs.length),
      db.getO i.outpoint.txid = some (.tx t) →
      verify i.sig (canonicalizeSignable inputs outputs)
        (t.outputs.get ⟨i.outpoint.index, hlen⟩).pubkey = false →
      validateTx db verify (.regular inputs outputs) = .perr .INVALID_TX_SIGNATURE) := by
  have hstep : ∀ e : ErrName,
      checkInput db verify (canonicalizeSignable inputs outputs) i = .perr e →
      validateTx db verify (.regular inputs outputs) = .perr e := by
    intro e he
    have h0 : checkInputs db verify (canonicalizeSignable inputs outputs) inputs 0 =
        checkInputs db verify (canonicalizeSignable inputs outputs) (pre ++ i :: rest) 0 := by
      rw [hsplit]
    have hch : checkInputs db verify (canonicalizeSignable inputs outputs) inputs 0 = .perr e := by
      rw [h0, checkInputs_append db verify _ pre (i :: rest) 0 hpre]
      simp only [checkInputs, he]
    simp only [validateTx, hch]
  refine ⟨?_, ?_, ?_, ?_⟩
  · intro hdb
    exact hstep _ (by rw [checkInput, hdb])
  · intro b hdb
    exact hstep _ (by rw [checkInput, hdb])
  · intro t hdb hlen
    refine hstep _ ?_
    rw [checkInput, hdb]
    simp only [dif_neg (not_lt_of_ge hlen)]
  · intro t hlen hdb hv
    refine hstep _ ?_
    rw [checkInput, hdb]
    simp only [dif_pos hlen]
    rw [if_neg (by rw [hv]; exact Bool.false_ne_true)]

theorem c6_input_checks_witness :
    dbW.getO "9999" = none ∧
    validateTx dbW verifyAll
      (.regular [TxInput.mk ⟨"9999", 0⟩ "s0"] [TxOutput.mk "pk" 5])
      = .perr .UNKNOWN_OBJECT :=
  ⟨by decide,
    (c6_input_checks dbW verifyAll [TxInput.mk ⟨"9999", 0⟩ "s0"] [TxOutput.mk "pk" 5]
      [] [] (TxInput.mk ⟨"9999", 0⟩ "s0") rfl (by decide)).1 (by decide)⟩

/-- C2 (amended): when block validation throws any protocol error, the
chaintip store, the object store and the mempool are unchanged; the UTXO
index is unchanged for failures up to and including the replay (PoW,
timestamps, genesis/parent, unfindable objects, replay outpoints), but a
failure in the height computation, the coinbase checks or the mempool
rebuild happens after `utxos.put(hash, utxoSet)`, so the rejected
block's UTXO set may remain persisted under its id. -/
theorem c2_block_failure_state (env : Env) (s : NodeState) (b : BlockObject)
    (e : ErrName) (s' : NodeState)
    (h : validateBlockFull env s b = (.perr e, s')) :
    s'.chaintip = s.chaintip ∧ s'.db = s.db ∧ s'.mempoolTXs = s.mempoolTXs ∧
    s'.mempoolUTXOs = s.mempoolUTXOs ∧
    (s'.utxos = s.utxos ∨
      ∃ u, s'.utxos = s.utxos.putU (env.hashFn (.block b)) u ∧
        s'.utxos.getU (env.hashFn (.block b)) = some u) := by
  simp only [validateBlockFull] at h
  repeat' split at h
  all_goals rw [Prod.mk.injEq] at h
  all_goals obtain ⟨h1, h2⟩ := h
  all_goals subst h2
  all_goals first
    | exact (MRes.noConfusion h1)
    | exact ⟨rfl, rfl, rfl, rfl, Or.inl rfl⟩
    | exact ⟨rfl, rfl, rfl, rfl, Or.inr ⟨_, rfl, UtxoStore.getU_putU _ _ _⟩⟩

theorem c2_block_failure_state_witness :
    emptyState.chaintip = emptyState.chaintip ∧ emptyState.db = emptyState.db ∧
    emptyState.mempoolTXs = emptyState.mempoolTXs ∧
    emptyState.mempoolUTXOs = emptyState.mempoolUTXOs ∧
    (emptyState.utxos = emptyState.utxos ∨
      ∃ u, emptyState.utxos = emptyState.utxos.putU (envG.hashFn (.block powBadBlock)) u ∧
        emptyState.utxos.getU (envG.hashFn (.block powBadBlock)) = some u) :=
  c2_block_failure_state envG emptyState powBadBlock .INVALID_BLOCK_POW emptyState
    (by decide)

/-- C2 (counterexample): a block whose coinbase output exceeds the block
reward plus fees is rejected with `INVALID_BLOCK_COINBASE`, yet its
post-replay UTXO set has already been persisted under the block's id
(the `utxos.put` at line 344 precedes the coinbase checks), refuting "no
UTXO set is persisted under that block's id".  The chaintip is indeed
unchanged. -/
theorem c2_counterexample :
    (validateBlockFull envC2 stateC2 blockC2).1 = .perr .INVALID_BLOCK_COINBASE ∧
    (validateBlockFull envC2 stateC2 blockC2).2.utxos.getU
        "0000000000000000000000000000000000000000000000000000000000000001"
      = some [⟨"cb", 0, 50000000000001⟩] ∧
    (validateBlockFull envC2 stateC2 blockC2).2.chaintip = stateC2.chaintip := by
  refine ⟨by decide, by decide, by decide⟩

/-- C8: one step of the validator never lowers the chaintip: it either
leaves the chaintip store untouched or installs a tip whose height
strictly exceeds the incumbent's (or there was no incumbent) — in
particular, on equal heights the incumbent is retained.  `validateObject`
is the only writer of the chaintip store in the program. -/
theorem c8_chaintip_monotonic (env : Env) (s : NodeState) (o : Object) :
    (validateObject env s o).2.chaintip = s.chaintip ∨
    (∃ c', (validateObject env s o).2.chaintip = some c' ∧
      ∀ c, s.chaintip = some c → c.height < c'.height) := by
  cases o with
  | tx t => left; rfl
  | block b =>
    simp only [validateObject, validateBlockFull]
    repeat' split
    all_goals try (left; rfl)
    all_goals
      right
      refine ⟨_, rfl, ?_⟩
      intro c hc
      simp_all

theorem c8_chaintip_monotonic_witness :
    (validateObject envG emptyState (.block genesisW)).2.chaintip = emptyState.chaintip ∨
    (∃ c', (validateObject envG emptyState (.block genesisW)).2.chaintip = some c' ∧
      ∀ c, emptyState.chaintip = some c → c.height < c'.height) :=
  c8_chaintip_monotonic envG emptyState (.block genesisW)

theorem getUTXO_isSome_eq_hasUTXO (set : List UTXO) (t : Hash) (i : Nat) :
    (getUTXO set t i).isSome = hasUTXO set t i := by
  rw [Bool.eq_iff_iff]
  simp only [getUTXO, hasUTXO, List.find?_isSome, Bool.not_eq_true',
    List.all_eq_false, Bool.and_eq_true, beq_iff_eq, bne_iff_ne, ne_eq,
    Bool.or_eq_false_iff, Bool.not_eq_true, Bool.not_eq_false]
  constructor
  · rintro ⟨x, hx, h1, h2⟩
    refine ⟨x, hx, ?_⟩
    simp [h1, h2]
  · rintro ⟨x, hx, hq1, hq2⟩
    exact ⟨x, hx, bne_eq_false_iff_eq.mp hq1, bne_eq_false_iff_eq.mp hq2⟩

theorem spendInputs_perr (ins : List TxInput) : ∀ (set : List UTXO) (fee : Int)
    (e : ErrName), spendInputs ins set fee = .perr e → e = .INVALID_TX_OUTPOINT := by
  induction ins with
  | nil => intro set fee e h; simp [spendInputs] at h
  | cons i rest ih =>
    intro set fee e h
    rw [spendInputs] at h
    split at h
    · exact ih _ _ _ h
    · simp only [MRes.perr.injEq] at h
      exact h.symm

theorem spendInputs_not_fuelOut (ins : List TxInput) : ∀ (set : List UTXO) (fee : Int),
    spendInputs ins set fee ≠ .fuelOut := by
  induction ins with
  | nil => intro set fee h; simp [spendInputs] at h
  | cons i rest ih =>
    intro set fee h
    rw [spendInputs] at h
    split at h
    · exact ih _ _ h
    · simp at h

theorem spendInputs_to_spec (ins : List TxInput) : ∀ (set : List UTXO) (fee : Int)
    (set' : List UTXO) (fee' : Int), spendInputs ins set fee = .ok (set', fee') →
    specResolveInputs ins set = some (fee' - fee, set') := by
  induction ins with
  | nil =>
    intro set fee set' fee' h
    simp only [spendInputs, MRes.ok.injEq, Prod.mk.injEq] at h
    obtain ⟨h1, h2⟩ := h
    simp [specResolveInputs, h1, h2]
  | cons i rest ih =>
    intro set fee set' fee' h
    rw [spendInputs] at h
    split at h
    case isTrue hg =>
      rcases hget : getUTXO set i.outpoint.txid i.outpoint.index with _ | u
      · rw [← getUTXO_isSome_eq_hasUTXO, hget] at hg
        simp at hg
      · simp only [hget] at h
        have hrec := ih _ _ _ _ h
        simp only [specResolveInputs, hget, hrec]
        congr 1
        rw [Prod.mk.injEq]
        exact ⟨by ring, rfl⟩
    case isFalse hg => simp at h

theorem addOutputs_spec (txid : Hash) (chargeFee : Bool) (outs : List TxOutput) :
    ∀ (idx : Nat) (set : List UTXO) (fee : Int),
    addOutputs txid chargeFee outs idx set fee =
      (set ++ specOutputsAsUTXOs txid outs idx,
       if chargeFee then fee - (outs.map (fun o => (o.value : Int))).sum else fee) := by
  induction outs with
  | nil => intro idx set fee; simp [addOutputs, specOutputsAsUTXOs]
  | cons o rest ih =>
    intro idx set fee
    rw [addOutputs, ih]
    rw [Prod.mk.injEq]
    constructor
    · simp [withUTXO, specOutputsAsUTXOs]
    · cases chargeFee
      · simp
      · simp
        ring

theorem updateUTXO_to_spec (hashFn : Object → Hash) (set : List UTXO)
    (tx : TransactionObject) (set' : List UTXO) (d : Int)
    (h : updateUTXO hashFn set tx = .ok (set', d)) :
    specTxFee hashFn set tx = some (d, set') := by
  cases tx with
  | regular ins outs =>
    rw [updateUTXO] at h
    split at h
    case _ s2 fee heq =>
      have hspec := spendInputs_to_spec ins set 0 s2 fee heq
      rw [sub_zero] at hspec
      rw [addOutputs_spec] at h
      simp only [if_true, MRes.ok.injEq, Prod.mk.injEq] at h
      obtain ⟨hA, hB⟩ := h
      simp only [specTxFee, hspec]
      rw [hA, hB]
    · simp at h
    · simp at h
  | coinbase ht outs =>
    rw [updateUTXO, addOutputs_spec] at h
    simp only [Bool.false_eq_true, if_false, MRes.ok.injEq, Prod.mk.injEq] at h
    obtain ⟨hA, hB⟩ := h
    rw [specTxFee, hA, hB]

theorem updateUTXO_perr (hashFn : Object → Hash) (set : List UTXO)
    (tx : TransactionObject) (e : ErrName) (h : updateUTXO hashFn set tx = .perr e) :
    e = .INVALID_TX_OUTPOINT := by
  cases tx with
  | regular ins outs =>
    rw [updateUTXO] at h
    split at h
    · simp at h
    · simp at h
    case _ e' heq =>
      simp only [MRes.perr.injEq] at h
      subst h
      exact spendInputs_perr ins set 0 _ heq
  | coinbase ht outs => rw [updateUTXO] at h; simp at h

theorem updateUTXO_not_fuelOut (hashFn : Object → Hash) (set : List UTXO)
    (tx : TransactionObject) : updateUTXO hashFn set tx ≠ .fuelOut := by
  cases tx with
  | regular ins outs =>
    intro h
    rw [updateUTXO] at h
    split at h
    · simp at h
    case _ heq => exact spendInputs_not_fuelOut ins set 0 heq
    · simp at h
  | coinbase ht outs => intro h; rw [updateUTXO] at h; simp at h

theorem buildUTXO_to_spec (hashFn : Object → Hash) (txs : List TransactionObject) :
    ∀ (set : List UTXO) (f0 : Int) (setN : List UTXO) (fN : Int),
    buildUTXO hashFn txs set f0 = .ok (setN, fN) →
    specBlockFees hashFn txs set = some (fN - f0) := by
  induction txs with
  | nil =>
    intro set f0 setN fN h
    simp only [buildUTXO, MRes.ok.injEq, Prod.mk.injEq] at h
    simp [specBlockFees, h.2]
  | cons tx rest ih =>
    intro set f0 setN fN h
    rw [buildUTXO] at h
    split at h
    case _ s1 d heq =>
      have h1 := updateUTXO_to_spec hashFn set tx s1 d heq
      have h2 := ih _ _ _ _ h
      simp only [specBlockFees, h1, h2, Option.map_some']
      congr 1
      ring
    · simp at h
    · simp at h

theorem applyTransaction_perr (hashFn : Object → Hash) (tx : TransactionObject)
    (u : List UTXO) (t : List Hash) (e : ErrName)
    (h : applyTransaction hashFn tx u t = .perr e) : e = .INVALID_TX_OUTPOINT := by
  rw [applyTransaction] at h
  split at h
  · simp at h
  · simp at h
  case _ e' heq =>
    simp only [MRes.perr.injEq] at h
    subst h
    exact updateUTXO_perr hashFn u tx _ heq

theorem applyLoop_perr (hashFn : Object → Hash) (db : Db) (txids : List Hash) :
    ∀ (u : List UTXO) (t : List Hash) (e : ErrName),
    applyLoop hashFn db txids u t = .perr e → e = .INTERNAL_ERROR := by
  induction txids with
  | nil => intro u t e h; simp [applyLoop] at h
  | cons txid rest ih =>
    intro u t e h
    rw [applyLoop] at h
    split at h
    · simp only [MRes.perr.injEq] at h; exact h.symm
    · split at h
      · simp only [MRes.perr.injEq] at h; exact h.symm
      · split at h
        · exact ih _ _ _ h
        · exact ih _ _ _ h
        · simp at h
        case _ e' hne heq =>
          simp only [MRes.perr.injEq] at h
          subst h
          have := applyTransaction_perr hashFn _ _ _ _ heq
          subst this
          exact (hne rfl).elim

theorem dbGetBlock_perr (db : Db) (hh : Hash) (e : ErrName)
    (h : dbGetBlock db hh = .perr e) : e = .INTERNAL_ERROR := by
  rw [dbGetBlock] at h
  split at h <;> simp_all

theorem liftLoop_perr (db : Db) (tip : Chaintip) : ∀ (n : Nat) (cur : Option Hash)
    (e : ErrName), liftLoop db tip n cur = .perr e → e = .INTERNAL_ERROR := by
  intro n
  induction n with
  | zero => intro cur e h; simp [liftLoop] at h
  | succ n ih =>
    intro cur e h
    rcases cur with _ | hh
    · have hr : liftLoop db tip (n + 1) none = MRes.perr .INTERNAL_ERROR := rfl
      rw [hr] at h
      simp only [MRes.perr.injEq] at h
      exact h.symm
    · have hr : liftLoop db tip (n + 1) (some hh) =
          match (if hh = tip.hash then MRes.ok tip.block else dbGetBlock db hh) with
          | .ok blk => liftLoop db tip n blk.previd
          | .fuelOut => .fuelOut
          | .perr e => .perr e := rfl
      rw [hr] at h
      split at h
      · exact ih _ _ h
      · simp at h
      · rename_i e' heq
        simp only [MRes.perr.injEq] at h
        subst h
        split at heq
        · simp at heq
        · exact dbGetBlock_perr _ _ _ heq

theorem lockstepLoop_perr (db : Db) : ∀ (fuel : Nat) (a b : Option Hash)
    (e : ErrName), lockstepLoop db fuel a b = .perr e → e = .INTERNAL_ERROR := by
  intro fuel
  induction fuel with
  | zero => intro a b e h; simp [lockstepLoop] at h
  | succ n ih =>
    intro a b e h
    rcases a with _ | ho
    · rcases b with _ | hn
      · replace h : (MRes.ok (none : Option Hash)) = MRes.perr e := h
        simp at h
      · replace h : (MRes.perr ErrName.INTERNAL_ERROR : MRes (Option Hash))
            = MRes.perr e := h
        simp only [MRes.perr.injEq] at h
        exact h.symm
    · rcases b with _ | hn
      · replace h : (MRes.perr ErrName.INTERNAL_ERROR : MRes (Option Hash))
            = MRes.perr e := h
        simp only [MRes.perr.injEq] at h
        exact h.symm
      · replace h : (if (some ho : Option Hash) = some hn then MRes.ok (some ho)
            else
              match dbGetBlock db ho with
              | MRes.ok bo =>
                (match dbGetBlock db hn with
                 | MRes.ok bn => lockstepLoop db n bo.previd bn.previd
                 | MRes.fuelOut => MRes.fuelOut
                 | MRes.perr e => MRes.perr e)
              | MRes.fuelOut => MRes.fuelOut
              | MRes.perr e => MRes.perr e) = MRes.perr e := h
        split at h
        · simp at h
        · split at h
          · split at h
            · exact ih _ _ _ h
            · simp at h
            · rename_i e' heq
              simp only [MRes.perr.injEq] at h
              subst h
              exact dbGetBlock_perr _ _ _ heq
          · simp at h
          · rename_i e' heq
            simp only [MRes.perr.injEq] at h
            subst h
            exact dbGetBlock_perr _ _ _ heq

theorem collectLoop_perr (db : Db) (tip : Chaintip) : ∀ (fuel : Nat)
    (stop cur : Option Hash) (acc : List Hash) (e : ErrName),
    collectLoop db tip fuel stop cur acc = .perr e → e = .INTERNAL_ERROR := by
  intro fuel
  induction fuel with
  | zero => intro stop cur acc e h; simp [collectLoop] at h
  | succ n ih =>
    intro stop cur acc e h
    rcases cur with _ | hh
    · replace h : (if (none : Option Hash) = stop then MRes.ok acc
          else MRes.perr ErrName.INTERNAL_ERROR) = MRes.perr e := h
      split at h
      · simp at h
      · simp only [MRes.perr.injEq] at h
        exact h.symm
    · replace h : (if (some hh : Option Hash) = stop then MRes.ok acc
          else
            match (if hh = tip.hash then MRes.ok tip.block else dbGetBlock db hh) with
            | MRes.ok blk => collectLoop db tip n stop blk.previd (blk.txids ++ acc)
            | MRes.fuelOut => MRes.fuelOut
            | MRes.perr e => MRes.perr e) = MRes.perr e := h
      split at h
      · simp at h
      · split at h
        · exact ih _ _ _ _ h
        · simp at h
        · rename_i e' heq
          simp only [MRes.perr.injEq] at h
          subst h
          split at heq
          · simp at heq
          · exact dbGetBlock_perr _ _ _ heq

theorem forgottenTransactions_perr (db : Db) (fuel : Nat) (old : Option Chaintip)
    (tip : Chaintip) (e : ErrName)
    (h : forgottenTransactions db fuel old tip = .perr e) : e = .INTERNAL_ERROR := by
  rw [forgottenTransactions.eq_def] at h
  repeat' split at h
  all_goals first
    | (simp at h; done)
    | (exact collectLoop_perr _ _ _ _ _ _ _ h)
    | (simp only [MRes.perr.injEq] at h; subst h;
       exact lockstepLoop_perr _ _ _ _ _ (by assumption))
    | (simp only [MRes.perr.injEq] at h; subst h;
       exact liftLoop_perr _ _ _ _ _ (by assumption))

/-- C7: for a block with a coinbase that reaches the coinbase value
check (pre-checks pass, the replay succeeds, the coinbase output is
unspent within the block, and the coinbase height matches), validation
fails with `INVALID_BLOCK_COINBASE` exactly when the coinbase's first
output value exceeds `BLOCK_REWARD` plus the replay's transaction fees;
the fees are computed in exact (BigInt/`Int`) arithmetic and equal the
sum over regular transactions of resolved input values minus output
values (`specBlockFees`), with no wrap-around past 2^32. -/
theorem c7_coinbase_value (env : Env) (s : NodeState) (b : BlockObject)
    (transactions : List Object) (cbh : Nat) (outs : List TxOutput) (o : TxOutput)
    (set0 utxoSet : List UTXO) (fees : Int) (height : Nat)
    (hpre : blockChecksPre env.hashFn env.now env.fetch s.db b = .ok transactions)
    (hcb : coinbaseOf transactions = some (cbh, outs))
    (hout : outs.head? = some o)
    (hstart : startUTXO s.utxos b.previd = .ok set0)
    (hbuild : buildUTXO env.hashFn (transactions.filterMap asTx) set0 0
      = .ok (utxoSet, fees))
    (hheight : blockHeight s.db env.fetch env.fuel b false = .ok height)
    (hunspent : hasUTXO utxoSet (b.txids.headD "") 0 = true)
    (hh : height = cbh) :
    ((validateBlockFull env s b).1 = .perr .INVALID_BLOCK_COINBASE ↔
      fees + BLOCK_REWARD < (o.value : Int)) ∧
    specBlockFees env.hashFn (transactions.filterMap asTx) set0 = some fees := by
  have hspec := buildUTXO_to_spec env.hashFn _ _ _ _ _ hbuild
  rw [sub_zero] at hspec
  refine ⟨?_, hspec⟩
  have hcc : coinbaseChecks (coinbaseOf transactions) utxoSet (b.txids.headD "")
      fees height =
      if fees + BLOCK_REWARD < (o.value : Int) then .perr .INVALID_BLOCK_COINBASE
      else .ok () := by
    rw [hcb]
    simp only [coinbaseChecks, hunspent, hout, hh]
    simp
  by_cases hval : fees + BLOCK_REWARD < (o.value : Int)
  · rw [if_pos hval] at hcc
    simp only [validateBlockFull, hpre, hstart, hbuild, hheight, hcc, hval, iff_true]
  · rw [if_neg hval] at hcc
    simp only [validateBlockFull, hpre, hstart, hbuild, hheight, hcc]
    simp only [hval, iff_false]
    intro hcontra
    repeat' split at hcontra
    all_goals first
      | (simp at hcontra; done)
      | (rename_i e' heq
         have he' := forgottenTransactions_perr _ _ _ _ _ heq
         subst he'
         simp at hcontra)
      | (rename_i e' heq
         have he' := applyLoop_perr _ _ _ _ _ _ heq
         subst he'
         simp at hcontra)

theorem c7_coinbase_value_witness :
    ((validateBlockFull envC7 stateC7 blockC7).1 = .perr .INVALID_BLOCK_COINBASE ↔
      (1099511627776 : Int) + BLOCK_REWARD < ((51099511627777 : Nat) : Int)) ∧
    specBlockFees envC7.hashFn ([Object.tx cbC7, Object.tx t1C7].filterMap asTx)
      [UTXO.mk "a0" 0 1099511627776] = some 1099511627776 :=
  c7_coinbase_value envC7 stateC7 blockC7 [.tx cbC7, .tx t1C7] 1
    [TxOutput.mk "ee37" 51099511627777] (TxOutput.mk "ee37" 51099511627777)
    [UTXO.mk "a0" 0 1099511627776] [UTXO.mk "cb" 0 51099511627777]
    1099511627776 1
    (by decide) (by decide) (by decide) (by decide) (by decide) (by decide)
    (by decide) (by decide)

/-- C10: a block whose txids list is empty needs no coinbase: when the
PoW, timestamp, genesis/ancestry and parent-fetch checks pass and the
parent's UTXO set and the height are obtainable, the UTXO set persisted
under the block's id equals the parent's UTXO set (the empty set for
genesis), and validation succeeds up to possible store/fuel
(`INTERNAL_ERROR`/divergence) failures in the chaintip-update phase —
never a protocol rejection of the block itself. -/
theorem c10_empty_block (env : Env) (s : NodeState) (b : BlockObject) (u0 : List UTXO) (hgt : Nat)
    (_htx : b.txids = [])
    (hpre : blockChecksPre env.hashFn env.now env.fetch s.db b = .ok [])
    (hstart : startUTXO s.utxos b.previd = .ok u0)
    (hheight : blockHeight s.db env.fetch env.fuel b false = .ok hgt) :
    (validateBlockFull env s b).2.utxos.getU (env.hashFn (.block b)) = some u0 ∧
    ((validateBlockFull env s b).1 = .ok () ∨ (validateBlockFull env s b).1 = .fuelOut ∨
      (validateBlockFull env s b).1 = .perr .INTERNAL_ERROR) := by
  have hbuild : buildUTXO env.hashFn (([] : List Object).filterMap asTx) u0 0
      = .ok (u0, 0) := by simp [buildUTXO]
  have hcc : coinbaseChecks (coinbaseOf []) u0 (b.txids.headD "") 0 hgt = .ok () := by
    simp [coinbaseOf, coinbaseChecks]
  constructor
  · simp only [validateBlockFull, hpre, hstart, hbuild, hheight, hcc]
    repeat' split
    all_goals exact UtxoStore.getU_putU _ _ _
  · simp only [validateBlockFull, hpre, hstart, hbuild, hheight, hcc]
    repeat' split
    all_goals first
      | (left; rfl)
      | (right; left; rfl)
      | (rename_i e' heq
         have he' := forgottenTransactions_perr _ _ _ _ _ heq
         subst he'
         right; right; rfl)
      | (rename_i e' heq
         have he' := applyLoop_perr _ _ _ _ _ _ heq
         subst he'
         right; right; rfl)

theorem c10_empty_block_witness :
    (validateBlockFull envG emptyState genesisW).2.utxos.getU
        (envG.hashFn (.block genesisW)) = some [] ∧
    ((validateBlockFull envG emptyState genesisW).1 = .ok () ∨
      (validateBlockFull envG emptyState genesisW).1 = .fuelOut ∨
      (validateBlockFull envG emptyState genesisW).1 = .perr .INTERNAL_ERROR) :=
  c10_empty_block envG emptyState genesisW [] 0
    (by decide) (by decide) (by decide) (by decide)


/-! ### Session-layer lemmas (error handling and handshake) -/

/-- The message switch never clears the closed flag. -/
theorem handleSwitch_closed (env : Env) (w : World) (msg : Message) :
    (handleSwitch env w msg).2.sess.closed = w.sess.closed := by
  cases msg <;> simp only [handleSwitch, sendErrorW] <;> repeat' split
  all_goals simp_all

/-- A world already marked closed stays closed through the error sender. -/
theorem sendErrorW_closed_true (w : World) (e : ErrName)
    (h : w.sess.closed = true) : (sendErrorW w e).sess.closed = true := by
  simp only [sendErrorW]
  split <;> simp [h]

/-- The message switch depends only on the peer set and the node state:
two worlds agreeing on those produce the same result, the same updated
peer set and node, and append the same action suffix. -/
theorem handleSwitch_factor (env : Env) (msg : Message) (w w' : World)
    (hp : w.peersSet = w'.peersSet) (hn : w.node = w'.node) :
    (handleSwitch env w msg).1 = (handleSwitch env w' msg).1 ∧
    (handleSwitch env w msg).2.peersSet = (handleSwitch env w' msg).2.peersSet ∧
    (handleSwitch env w msg).2.node = (handleSwitch env w' msg).2.node ∧
    ∃ δ, (handleSwitch env w msg).2.actions = w.actions ++ δ ∧
         (handleSwitch env w' msg).2.actions = w'.actions ++ δ := by
  cases msg with
  | hello v a =>
    refine ⟨?_, ?_, ?_, ⟨[], ?_, ?_⟩⟩ <;> simp [handleSwitch, hp, hn]
  | errorMsg e =>
    refine ⟨?_, ?_, ?_, ⟨[], ?_, ?_⟩⟩ <;> simp [handleSwitch, hp, hn]
  | getpeers =>
    refine ⟨?_, ?_, ?_, ⟨[.sendMsg (.peersMsg w.peersSet)], ?_, ?_⟩⟩ <;>
      simp [handleSwitch, hp, hn]
  | peersMsg ps =>
    refine ⟨?_, ?_, ?_, ⟨[], ?_, ?_⟩⟩ <;> simp [handleSwitch, hp, hn]
  | getobject objectid =>
    rcases hq : w'.node.db.getO objectid with _ | o
    · refine ⟨?_, ?_, ?_, ⟨[.sendMsg (.errorMsg .UNKNOWN_OBJECT)], ?_, ?_⟩⟩ <;>
        simp [handleSwitch, hn, hq, sendErrorW, hp]
    · refine ⟨?_, ?_, ?_, ⟨[.sendMsg (.objectMsg o)], ?_, ?_⟩⟩ <;>
        simp [handleSwitch, hn, hq, hp]
  | ihaveobject objectid =>
    by_cases hk : w'.node.db.hasKey objectid
    · refine ⟨?_, ?_, ?_, ⟨[], ?_, ?_⟩⟩ <;> simp [handleSwitch, hn, hk, hp]
    · refine ⟨?_, ?_, ?_, ⟨[.sendMsg (.getobject objectid)], ?_, ?_⟩⟩ <;>
        simp [handleSwitch, hn, hk, hp]
  | chaintipMsg blockid =>
    rcases hq : ensureObject w'.node.db env.fetch blockid with a | _ | e <;>
      (refine ⟨?_, ?_, ?_, ⟨[], ?_, ?_⟩⟩) <;>
      simp [handleSwitch, hn, hq, hp]
  | getchaintip =>
    rcases hq : w'.node.chaintip with _ | tip
    · refine ⟨?_, ?_, ?_, ⟨[], ?_, ?_⟩⟩ <;> simp [handleSwitch, hn, hq, hp]
    · refine ⟨?_, ?_, ?_, ⟨[.sendMsg (.chaintipMsg tip.hash)], ?_, ?_⟩⟩ <;>
        simp [handleSwitch, hn, hq, hp]
  | mempoolMsg txids =>
    refine ⟨?_, ?_, ?_, ⟨txids.map Action.broadcastGetObject, ?_, ?_⟩⟩ <;>
      simp [handleSwitch, hp, hn]
  | getmempool =>
    refine ⟨?_, ?_, ?_, ⟨[.sendMsg (.mempoolMsg w.node.mempoolTXs)], ?_, ?_⟩⟩ <;>
      simp [handleSwitch, hp, hn]
  | objectMsg o =>
    rcases hv : validateObject env w'.node o with ⟨r, n1⟩
    cases r with
    | fuelOut =>
      refine ⟨?_, ?_, ?_, ⟨[], ?_, ?_⟩⟩ <;> simp [handleSwitch, hn, hv, hp]
    | perr e =>
      refine ⟨?_, ?_, ?_, ⟨[], ?_, ?_⟩⟩ <;> simp [handleSwitch, hn, hv, hp]
    | ok a =>
      cases o with
      | block b =>
        refine ⟨?_, ?_, ?_, ⟨[.emitEvent (env.hashFn (.block b)),
          .broadcastIHave (env.hashFn (.block b))], ?_, ?_⟩⟩ <;>
          simp [handleSwitch, hn, hv, hp]
      | tx t =>
        cases t with
        | coinbase ch outs =>
          refine ⟨?_, ?_, ?_, ⟨[.emitEvent (env.hashFn (.tx (.coinbase ch outs))),
            .broadcastIHave (env.hashFn (.tx (.coinbase ch outs)))], ?_, ?_⟩⟩ <;>
            simp [handleSwitch, hn, hv, hp]
        | regular ins outs =>
          by_cases hk : n1.db.hasKey (env.hashFn (.tx (.regular ins outs))) <;>
            rcases ha : applyTransaction env.hashFn (.regular ins outs)
              n1.mempoolUTXOs n1.mempoolTXs with p | _ | e <;>
            (refine ⟨?_, ?_, ?_, ⟨[.emitEvent (env.hashFn (.tx (.regular ins outs))),
              .broadcastIHave (env.hashFn (.tx (.regular ins outs)))], ?_, ?_⟩⟩) <;>
            simp [handleSwitch, hn, hv, hk, ha, hp]

/-- The error sender leaves the peer set unchanged. -/
theorem sendErrorW_peersSet (x : World) (e : ErrName) :
    (sendErrorW x e).peersSet = x.peersSet := by
  simp only [sendErrorW]; split <;> rfl

/-- The error sender leaves the node state unchanged. -/
theorem sendErrorW_node (x : World) (e : ErrName) :
    (sendErrorW x e).node = x.node := by
  simp only [sendErrorW]; split <;> rfl

/-- The error sender appends the error message, plus a disconnect for
the two fatal codes. -/
theorem sendErrorW_actions (x : World) (e : ErrName) :
    (sendErrorW x e).actions = x.actions ++
      (if e = .INVALID_FORMAT ∨ e = .INVALID_HANDSHAKE then
        [.sendMsg (.errorMsg e), .disconnectA] else [.sendMsg (.errorMsg e)]) := by
  simp only [sendErrorW]
  split <;> simp

/-- C9: a syntactically and signature-valid transaction whose mempool
application hits a spent or unknown outpoint is still stored in the
object database, still gossiped (object event and ihaveobject
broadcast), and the INVALID_TX_OUTPOINT error is sent afterwards
without closing the connection: the error does not suppress storage or
gossip. -/
theorem c9_mempool_error_effects (env : Env) (w : World) (ins : List TxInput) (outs : List TxOutput)
    (hhello : w.sess.saidHello = true)
    (hvalid : validateTx w.node.db env.verify (.regular ins outs) = .ok ())
    (happly : applyTransaction env.hashFn (.regular ins outs)
      w.node.mempoolUTXOs w.node.mempoolTXs = .perr .INVALID_TX_OUTPOINT) :
    handleLine env w (.objectMsg (.tx (.regular ins outs))) =
      { w with
        node := { w.node with db :=
          (if w.node.db.hasKey (env.hashFn (.tx (.regular ins outs))) = true
           then w.node.db
           else w.node.db.putO (env.hashFn (.tx (.regular ins outs)))
             (.tx (.regular ins outs))) }
        actions := w.actions ++
          [.emitEvent (env.hashFn (.tx (.regular ins outs))),
           .broadcastIHave (env.hashFn (.tx (.regular ins outs))),
           .sendMsg (.errorMsg .INVALID_TX_OUTPOINT)] } := by
  have h1 : validateObject env w.node (.tx (.regular ins outs)) = (.ok (), w.node) := by
    simp only [validateObject, hvalid]
  have hmsg : handleMessage env w (.objectMsg (.tx (.regular ins outs))) =
      handleSwitch env w (.objectMsg (.tx (.regular ins outs))) := by
    simp [handleMessage, hhello]
  simp only [handleLine, hmsg, handleSwitch]
  rw [h1]
  by_cases hk : w.node.db.hasKey (env.hashFn (.tx (.regular ins outs)))
  · simp only [hk, if_true, reduceIte]
    simp only [happly]
    simp [sendErrorW, List.append_assoc]
  · simp only [hk, Bool.false_eq_true, if_false]
    simp only [happly]
    simp [hk, sendErrorW, List.append_assoc]

theorem c9_mempool_error_effects_witness :
    handleLine envC9 wC9 (.objectMsg (.tx (.regular insC9 outsC9))) =
      { wC9 with
        node := { wC9.node with db :=
          (if wC9.node.db.hasKey (envC9.hashFn (.tx (.regular insC9 outsC9))) = true
           then wC9.node.db
           else wC9.node.db.putO (envC9.hashFn (.tx (.regular insC9 outsC9)))
             (.tx (.regular insC9 outsC9))) }
        actions := wC9.actions ++
          [.emitEvent (envC9.hashFn (.tx (.regular insC9 outsC9))),
           .broadcastIHave (envC9.hashFn (.tx (.regular insC9 outsC9))),
           .sendMsg (.errorMsg .INVALID_TX_OUTPOINT)] } :=
  c9_mempool_error_effects envC9 wC9 insC9 outsC9 rfl (by decide) (by decide)

/-- C3 (amended): a non-hello message before the handshake draws
INVALID_HANDSHAKE and marks the session closed (the socket is ended),
but the handler then falls through to the ordinary message switch: the
message is still processed, producing the same peer-set and node-state
changes, and the same subsequent actions, as it would after a completed
handshake. -/
theorem c3_handshake_enforcement (env : Env) (w : World) (msg : Message)
    (hawait : w.sess.saidHello = false)
    (hnothello : (match msg with | Message.hello _ _ => true | _ => false) = false) :
    (handleLine env w msg).sess.closed = true ∧
    (∃ rest, (handleLine env w msg).actions =
        w.actions ++ [.sendMsg (.errorMsg .INVALID_HANDSHAKE), .disconnectA] ++ rest ∧
      (handleLine env { w with sess := { w.sess with saidHello := true } } msg).actions =
        w.actions ++ rest) ∧
    (handleLine env w msg).peersSet =
      (handleLine env { w with sess := { w.sess with saidHello := true } } msg).peersSet ∧
    (handleLine env w msg).node =
      (handleLine env { w with sess := { w.sess with saidHello := true } } msg).node := by
  have hwe_a : (sendErrorW w .INVALID_HANDSHAKE).actions =
      w.actions ++ [.sendMsg (.errorMsg .INVALID_HANDSHAKE), .disconnectA] := by
    simp [sendErrorW]
  have hwe_c : (sendErrorW w .INVALID_HANDSHAKE).sess.closed = true := by simp [sendErrorW]
  have hm1 : handleMessage env w msg = handleSwitch env (sendErrorW w .INVALID_HANDSHAKE) msg := by
    simp only [handleMessage, hawait]
    simp
    split
    · rfl
    · next hcond => exact absurd hnothello hcond
  have hm2 : handleMessage env { w with sess := { w.sess with saidHello := true } } msg =
      handleSwitch env { w with sess := { w.sess with saidHello := true } } msg := by
    simp [handleMessage]
  obtain ⟨hf1, hf2, hf3, δ, hd1, hd2⟩ :=
    handleSwitch_factor env msg (sendErrorW w .INVALID_HANDSHAKE)
      { w with sess := { w.sess with saidHello := true } }
      (by rw [sendErrorW_peersSet]) (by rw [sendErrorW_node])
  have hcl := handleSwitch_closed env (sendErrorW w .INVALID_HANDSHAKE) msg
  rw [hwe_c] at hcl
  rw [hwe_a] at hd1
  rcases hs1 : handleSwitch env (sendErrorW w .INVALID_HANDSHAKE) msg with ⟨r1, w1⟩
  rcases hs2 : handleSwitch env { w with sess := { w.sess with saidHello := true } } msg
    with ⟨r2, w2⟩
  rw [hs1] at hf1 hd1 hcl
  rw [hs2] at hf1 hf2 hf3 hd2
  rw [hs1] at hf2 hf3
  simp only at hf1 hf2 hf3 hd1 hd2 hcl
  subst hf1
  simp only [handleLine, hm1, hm2, hs1, hs2]
  cases r1 with
  | ok a =>
    exact ⟨hcl, ⟨δ, by rw [hd1, List.append_assoc], hd2⟩, hf2, hf3⟩
  | fuelOut =>
    exact ⟨hcl, ⟨δ, by rw [hd1, List.append_assoc], hd2⟩, hf2, hf3⟩
  | perr e =>
    refine ⟨sendErrorW_closed_true _ _ hcl,
      ⟨δ ++ (if e = .INVALID_FORMAT ∨ e = .INVALID_HANDSHAKE then
          [.sendMsg (.errorMsg e), .disconnectA] else [.sendMsg (.errorMsg e)]), ?_, ?_⟩,
      ?_, ?_⟩
    · rw [sendErrorW_actions, hd1]
      simp [List.append_assoc]
    · rw [sendErrorW_actions, hd2]
      simp [List.append_assoc]
    · rw [sendErrorW_peersSet, sendErrorW_peersSet, hf2]
    · rw [sendErrorW_node, sendErrorW_node, hf3]

theorem c3_handshake_enforcement_witness :
    (handleLine envG wAwait .getpeers).sess.closed = true ∧
    (∃ rest, (handleLine envG wAwait .getpeers).actions =
        wAwait.actions ++ [.sendMsg (.errorMsg .INVALID_HANDSHAKE), .disconnectA] ++ rest ∧
      (handleLine envG { wAwait with sess := { wAwait.sess with saidHello := true } }
        .getpeers).actions = wAwait.actions ++ rest) ∧
    (handleLine envG wAwait .getpeers).peersSet =
      (handleLine envG { wAwait with sess := { wAwait.sess with saidHello := true } }
        .getpeers).peersSet ∧
    (handleLine envG wAwait .getpeers).node =
      (handleLine envG { wAwait with sess := { wAwait.sess with saidHello := true } }
        .getpeers).node :=
  c3_handshake_enforcement envG wAwait .getpeers rfl rfl

/-- C3 counterexample: a peers message sent before any hello still adds
the advertised peer to the peer set, refuting the claim that the
offending message has no effect beyond the error and disconnect. -/
theorem c3_counterexample :
    (handleLine envG wAwait (.peersMsg ["1.2.3.4:18018"])).peersSet = ["1.2.3.4:18018"] ∧
    (handleLine envG wAwait (.peersMsg ["1.2.3.4:18018"])).sess.closed = true ∧
    (handleLine envG wAwait (.peersMsg ["1.2.3.4:18018"])).actions =
      [.sendMsg (.errorMsg .INVALID_HANDSHAKE), .disconnectA] := by
  refine ⟨by decide, by decide, by decide⟩

/-! ### Chain-walk lemmas and the reorg characterization (C1) -/

/-- Dropping a prefix of a linked chain leaves a linked chain. -/
theorem chainLinkedB_drop (n : Nat) :
    ∀ (l : List (Hash × BlockObject)), chainLinkedB l = true →
      chainLinkedB (l.drop n) = true := by
  induction n with
  | zero => intro l h; simpa using h
  | succ n ih =>
    intro l h
    cases l with
    | nil => simpa using h
    | cons p rest =>
      obtain ⟨hh, bb⟩ := p
      simp only [List.drop_succ_cons]
      apply ih
      simp only [chainLinkedB, Bool.and_eq_true] at h
      exact h.2

/-- The head of a linked chain points at the head of its tail. -/
theorem chainLinkedB_head_previd (h : Hash) (b : BlockObject)
    (rest : List (Hash × BlockObject))
    (hl : chainLinkedB ((h, b) :: rest) = true) :
    b.previd = headHash rest ∧ chainLinkedB rest = true := by
  simp only [chainLinkedB, Bool.and_eq_true] at hl
  refine ⟨?_, hl.2⟩
  rcases rest with _ | ⟨⟨h', b'⟩, rest'⟩
  · simpa [headHash] using hl.1
  · simpa [headHash] using hl.1

/-- The naive-lifting loop lands on the chain entry k steps down. -/
theorem liftLoop_spec (db : Db) (tip : Chaintip) :
    ∀ (k : Nat) (chain : List (Hash × BlockObject)),
    chainLinkedB chain = true →
    (∀ p ∈ chain, db.getO p.1 = some (.block p.2)) →
    (∀ p ∈ chain, p.1 = tip.hash → p.2 = tip.block) →
    k ≤ chain.length →
    liftLoop db tip k (headHash chain) = .ok (headHash (chain.drop k)) := by
  intro k
  induction k with
  | zero => intro chain _ _ _ _; simp [liftLoop]
  | succ k ih =>
    intro chain hlink hdb htip hk
    cases chain with
    | nil => simp at hk
    | cons p rest =>
      obtain ⟨h, b⟩ := p
      have hprev := chainLinkedB_head_previd h b rest hlink
      have hread : (if h = tip.hash then MRes.ok tip.block else dbGetBlock db h) = .ok b := by
        by_cases hth : h = tip.hash
        · have hb := htip (h, b) (by simp) hth
          simp only at hb
          simp [hth, hb.symm]
        · simp [hth, dbGetBlock, hdb (h, b) (by simp)]
      have hr : liftLoop db tip (k + 1) (some h) =
          (match (if h = tip.hash then MRes.ok tip.block else dbGetBlock db h) with
           | .ok blk => liftLoop db tip k blk.previd
           | .fuelOut => .fuelOut
           | .perr e => .perr e) := rfl
      have hgoal : headHash ((h, b) :: rest) = some h := rfl
      rw [hgoal, hr, hread]
      simp only
      rw [hprev.1]
      rw [ih rest hprev.2 (fun p hp => hdb p (by simp [hp]))
        (fun p hp => htip p (by simp [hp])) (by simpa using hk)]
      simp

/-- The lock-step ancestor walk over two equal-length disjoint branches
sharing a suffix stops at the head of the shared suffix. -/
theorem lockstepLoop_spec (db : Db) :
    ∀ (pa pb rest : List (Hash × BlockObject)) (fuel : Nat),
    pa.length = pb.length →
    chainLinkedB (pa ++ rest) = true →
    chainLinkedB (pb ++ rest) = true →
    (∀ p ∈ pa, db.getO p.1 = some (.block p.2)) →
    (∀ p ∈ pb, db.getO p.1 = some (.block p.2)) →
    (∀ h ∈ pa.map Prod.fst, h ∉ pb.map Prod.fst) →
    pa.length < fuel →
    lockstepLoop db fuel (headHash (pa ++ rest)) (headHash (pb ++ rest)) =
      .ok (headHash rest) := by
  intro pa
  induction pa with
  | nil =>
    intro pb rest fuel hlen _ _ _ _ _ hfuel
    have hpb : pb = [] := List.eq_nil_of_length_eq_zero hlen.symm
    subst hpb
    cases fuel with
    | zero => omega
    | succ f =>
      simp only [List.nil_append]
      cases hh : headHash rest <;> simp [lockstepLoop]
  | cons p pa ih =>
    intro pb rest fuel hlen hla hlb hda hdb hdisj hfuel
    obtain ⟨ha, ba⟩ := p
    cases pb with
    | nil => simp at hlen
    | cons q pb =>
      obtain ⟨hb, bb⟩ := q
      cases fuel with
      | zero => omega
      | succ f =>
        have hne : ha ≠ hb := by
          intro hcontra
          exact hdisj ha (by simp) (by simp [hcontra])
        have hprevA := chainLinkedB_head_previd ha ba (pa ++ rest) hla
        have hprevB := chainLinkedB_head_previd hb bb (pb ++ rest) hlb
        have hga : dbGetBlock db ha = .ok ba := by
          simp [dbGetBlock, hda (ha, ba) (by simp)]
        have hgb : dbGetBlock db hb = .ok bb := by
          simp [dbGetBlock, hdb (hb, bb) (by simp)]
        have hr : lockstepLoop db (f + 1) (some ha) (some hb) =
            (if (some ha : Option Hash) = some hb then .ok (some ha)
             else
               match dbGetBlock db ha with
               | .ok bo =>
                 (match dbGetBlock db hb with
                  | .ok bn => lockstepLoop db f bo.previd bn.previd
                  | .fuelOut => .fuelOut
                  | .perr e => .perr e)
               | .fuelOut => .fuelOut
               | .perr e => .perr e) := rfl
        have hgoal1 : headHash (((ha, ba) :: pa) ++ rest) = some ha := rfl
        have hgoal2 : headHash (((hb, bb) :: pb) ++ rest) = some hb := rfl
        rw [hgoal1, hgoal2, hr, if_neg (by simp [hne]), hga, hgb]
        simp only
        rw [hprevA.1, hprevB.1]
        exact ih pb rest f (by simpa using hlen) hprevA.2 hprevB.2
          (fun p hp => hda p (by simp [hp]))
          (fun p hp => hdb p (by simp [hp]))
          (fun h hh hmem => hdisj h (by simp [hh]) (by simp [hmem]))
          (by simpa using hfuel)

/-- The collection loop gathers the txids of the walked prefix, oldest
block first, in front of the accumulator. -/
theorem collectLoop_spec (db : Db) (tip : Chaintip) :
    ∀ (part rest : List (Hash × BlockObject)) (acc : List Hash) (fuel : Nat),
    chainLinkedB (part ++ rest) = true →
    (∀ p ∈ part, db.getO p.1 = some (.block p.2)) →
    (∀ p ∈ part, p.1 = tip.hash → p.2 = tip.block) →
    (∀ p ∈ part, some p.1 ≠ headHash rest) →
    part.length < fuel →
    collectLoop db tip fuel (headHash rest) (headHash (part ++ rest)) acc =
      .ok ((part.reverse.map (fun p => p.2.txids)).flatten ++ acc) := by
  intro part
  induction part with
  | nil =>
    intro rest acc fuel _ _ _ _ hfuel
    cases fuel with
    | zero => omega
    | succ f =>
      simp only [List.nil_append]
      cases hh : headHash rest <;> simp [collectLoop]
  | cons p pr ih =>
    intro rest acc fuel hlink hdb htip hstop hfuel
    obtain ⟨h, b⟩ := p
    cases fuel with
    | zero => omega
    | succ f =>
      have hprev := chainLinkedB_head_previd h b (pr ++ rest) hlink
      have hread : (if h = tip.hash then MRes.ok tip.block else dbGetBlock db h) = .ok b := by
        by_cases hth : h = tip.hash
        · have hb := htip (h, b) (by simp) hth
          simp only at hb
          simp [hth, hb.symm]
        · simp [hth, dbGetBlock, hdb (h, b) (by simp)]
      have hr : collectLoop db tip (f + 1) (headHash rest) (some h) acc =
          (if (some h : Option Hash) = headHash rest then .ok acc
           else
             match (if h = tip.hash then MRes.ok tip.block else dbGetBlock db h) with
             | .ok blk => collectLoop db tip f (headHash rest) blk.previd (blk.txids ++ acc)
             | .fuelOut => .fuelOut
             | .perr e => .perr e) := rfl
      have hgoal : headHash (((h, b) :: pr) ++ rest) = some h := rfl
      rw [hgoal, hr, if_neg (hstop (h, b) (by simp)), hread]
      simp only
      rw [hprev.1]
      rw [ih rest (b.txids ++ acc) f hprev.2
        (fun p hp => hdb p (by simp [hp]))
        (fun p hp => htip p (by simp [hp]))
        (fun p hp => hstop p (by simp [hp]))
        (by simpa using hfuel)]
      simp [List.append_assoc]

/-- C1 (amended): on a reorg the walk in `forgottenTransactions` runs
over the NEW chain, not the old one: with a common ancestor it returns
the transaction ids of the blocks on NEW's chain but not on OLD's
chain, oldest block first, and with a null old chaintip it returns the
transaction ids of the whole new chain (not the empty list). -/
theorem c1_forgotten_characterization
    (db : Db) (fuel : Nat)
    (oldPart newPart common : List (Hash × BlockObject))
    (oc nt : Chaintip)
    (hcom : common ≠ [])
    (hlinkOld : chainLinkedB (oldPart ++ common) = true)
    (hlinkNew : chainLinkedB (newPart ++ common) = true)
    (hdbOld : ∀ p ∈ oldPart ++ common, db.getO p.1 = some (.block p.2))
    (hdbNew : ∀ p ∈ newPart ++ common, db.getO p.1 = some (.block p.2))
    (hnodup : ((newPart ++ common).map Prod.fst).Nodup)
    (hdisj : ∀ h ∈ oldPart.map Prod.fst, h ∉ newPart.map Prod.fst)
    (hlen : oldPart.length ≤ newPart.length)
    (hocHash : headHash (oldPart ++ common) = some oc.hash)
    (hocHeight : oc.height = (oldPart ++ common).length - 1)
    (hntHead : (newPart ++ common).head? = some (nt.hash, nt.block))
    (hntHeight : nt.height = (newPart ++ common).length - 1)
    (hfuel : (newPart ++ common).length < fuel) :
    forgottenTransactions db fuel (some oc) nt =
        .ok ((newPart.reverse.map (fun p => p.2.txids)).flatten) ∧
    forgottenTransactions db fuel none nt =
        .ok (((newPart ++ common).reverse.map (fun p => p.2.txids)).flatten) := by
  have hc1 : 1 ≤ common.length := List.length_pos.mpr hcom
  have hhn : headHash (newPart ++ common) = some nt.hash := by
    simp [headHash, hntHead]
  -- the new chain starts with the tip entry itself
  obtain ⟨l', hl'⟩ : ∃ l', newPart ++ common = (nt.hash, nt.block) :: l' := by
    cases hq : newPart ++ common with
    | nil => rw [hq] at hntHead; simp at hntHead
    | cons x xs =>
      rw [hq] at hntHead
      simp only [List.head?_cons, Option.some.injEq] at hntHead
      exact ⟨xs, by rw [hntHead]⟩
  have htipNew : ∀ p ∈ newPart ++ common, p.1 = nt.hash → p.2 = nt.block := by
    intro p hp hph
    rw [hl'] at hp hnodup
    rcases List.mem_cons.mp hp with hhead | htail
    · rw [hhead]
    · exfalso
      simp only [List.map_cons, List.nodup_cons] at hnodup
      exact hnodup.1 (by
        simp only [List.mem_map]
        exact ⟨p, htail, by simp [hph]⟩)
  have hstopDisj : ∀ p ∈ newPart, some p.1 ≠ headHash common := by
    intro p hp
    cases hq : common with
    | nil => simp [headHash, hq]
    | cons c cs =>
      simp only [headHash, List.head?_cons, Option.map_some', ne_eq, Option.some.injEq]
      intro hpc
      rw [List.map_append, List.nodup_append] at hnodup
      have h1 : p.1 ∈ newPart.map Prod.fst := by
        simp only [List.mem_map]; exact ⟨p, hp, rfl⟩
      have h2 : p.1 ∈ common.map Prod.fst := by simp [hq, hpc]
      exact hnodup.2.2 h1 h2
  constructor
  · -- fork case
    have hk : nt.height - oc.height = newPart.length - oldPart.length := by
      rw [hocHeight, hntHeight]
      simp only [List.length_append]
      omega
    have hdropEq : (newPart ++ common).drop (newPart.length - oldPart.length) =
        newPart.drop (newPart.length - oldPart.length) ++ common :=
      List.drop_append_of_le_length (by omega)
    have hlift : liftLoop db nt (nt.height - oc.height) (some nt.hash) =
        .ok (headHash (newPart.drop (newPart.length - oldPart.length) ++ common)) := by
      rw [hk, ← hhn, ← hdropEq]
      exact liftLoop_spec db nt (newPart.length - oldPart.length) (newPart ++ common)
        hlinkNew hdbNew htipNew (by simp only [List.length_append]; omega)
    have hlock : lockstepLoop db fuel (some oc.hash)
        (headHash (newPart.drop (newPart.length - oldPart.length) ++ common)) =
        .ok (headHash common) := by
      rw [← hocHash]
      refine lockstepLoop_spec db oldPart (newPart.drop (newPart.length - oldPart.length))
        common fuel ?_ hlinkOld ?_
        (fun p hp => hdbOld p (List.mem_append_left _ hp))
        (fun p hp => hdbNew p (List.mem_append_left _ (List.mem_of_mem_drop hp)))
        ?_ ?_
      · simp only [List.length_drop]; omega
      · rw [← hdropEq]
        exact chainLinkedB_drop _ _ hlinkNew
      · intro h hh hmem
        refine hdisj h hh ?_
        obtain ⟨p, hp, hph⟩ := List.mem_map.mp hmem
        exact List.mem_map.mpr ⟨p, List.mem_of_mem_drop hp, hph⟩
      · simp only [List.length_append] at hfuel; omega
    have hcollect : collectLoop db nt fuel (headHash common) (some nt.hash) [] =
        .ok ((newPart.reverse.map (fun p => p.2.txids)).flatten) := by
      rw [← hhn]
      rw [collectLoop_spec db nt newPart common [] fuel hlinkNew
        (fun p hp => hdbNew p (List.mem_append_left _ hp))
        (fun p hp => htipNew p (List.mem_append_left _ hp))
        hstopDisj
        (by simp only [List.length_append] at hfuel; omega)]
      simp
    have hu : forgottenTransactions db fuel (some oc) nt =
        (match liftLoop db nt (nt.height - oc.height) (some nt.hash) with
         | .ok lifted =>
           (match lockstepLoop db fuel (some oc.hash) lifted with
            | .ok anc => collectLoop db nt fuel anc (some nt.hash) []
            | .fuelOut => .fuelOut
            | .perr e => .perr e)
         | .fuelOut => .fuelOut
         | .perr e => .perr e) := rfl
    rw [hu, hlift]
    simp only
    rw [hlock]
    simp only
    exact hcollect
  · -- null case
    have hu : forgottenTransactions db fuel none nt =
        collectLoop db nt fuel none (some nt.hash) [] := rfl
    rw [hu, ← hhn]
    have hnil : headHash ([] : List (Hash × BlockObject)) = none := rfl
    rw [← hnil]
    have happ : newPart ++ common = (newPart ++ common) ++ [] := by simp
    rw [show (headHash (newPart ++ common)) = headHash ((newPart ++ common) ++ []) by simp]
    rw [collectLoop_spec db nt (newPart ++ common) [] [] fuel (by simpa using hlinkNew)
      hdbNew htipNew (by intro p _; simp [headHash]) (by omega)]
    simp


/-- C1 counterexample: with a null old chaintip the code returns the
new tip's own transactions, not the empty list the spec promises. -/
theorem c1_counterexample :
    forgottenTransactions [] 5 none tipCexC1 = .ok ["t0"] ∧
    .ok ["t0"] ≠ (.ok [] : MRes (List Hash)) := by
  refine ⟨by decide, by decide⟩

theorem c1_forgotten_characterization_witness :
    forgottenTransactions dbC1 5 (some ocC1) ntC1 = .ok ["tb", "tc"] ∧
    forgottenTransactions dbC1 5 none ntC1 = .ok ["tb", "tc"] := by
  have h := c1_forgotten_characterization dbC1 5 oldPartC1 newPartC1 commonC1 ocC1 ntC1
    (by decide) (by decide) (by decide) (by decide) (by decide) (by decide)
    (by decide) (by decide) (by decide) (by decide) (by decide) (by decide) (by decide)
  exact ⟨h.1.trans (by decide), h.2.trans (by decide)⟩

end Undertaker
